import Mathlib

/-!
Verification development for the poddo-backend point-of-sale repository.

The relational state touched by the order/billing/inventory pipeline is
embedded shallowly: each Prisma table becomes a list of rows, each API
handler (the part of it that runs inside `prisma.$transaction`) becomes a
pure function `DB → Except String DB` (or returns the created row as
well).  Prisma `findUnique` becomes `List.find?`, `update` on a unique key
becomes an update of the first matching row, `create` appends a row, and a
thrown error becomes `Except.error` (the enclosing transaction rolls back,
so an error result carries no state).

Numeric fields (`Float` in the Prisma schema, IEEE numbers in the
JavaScript handlers) are modelled as exact integers `Int`: every
computation the claims talk about is ring arithmetic (sums, differences,
products, comparisons), so the statements are independent of the carrier,
and an exact carrier keeps every definition kernel-executable.
-/

namespace Poddo

/-- Order lifecycle states (Prisma enum `OrderStatus`, after the
`add_status_billing` migration added `VOID`). -/
inductive OrderStatus where
  | PENDING
  | SERVED
  | PAID
  | CANCELED
  | VOID
deriving DecidableEq, Repr

/-- Line-item states (Prisma enum `OrderItemStatus`). -/
inductive OrderItemStatus where
  | ACTIVE
  | CANCELED
deriving DecidableEq, Repr

/-- Billing states (Prisma enum `PaymentStatus`). -/
inductive PaymentStatus where
  | PAID
  | VOID
deriving DecidableEq, Repr

/-- Payment channels (Prisma enum `PaymentType`). -/
inductive PaymentType where
  | CASH
  | QRIS
  | BANK_TRANSFER
  | KASBON
  | GRABFOOD
  | SHOPEEFOOD
  | GOFOOD
  | FOC
deriving DecidableEq, Repr

/-- Stock-ledger entry kinds (Prisma enum `StockLogType`, after the
`add_status_billing` migration added `VOID`). -/
inductive StockLogType where
  | INBOUND
  | DISCREPANCY
  | OUTBOUND_NM
  | OUTBOUND_BOSS
  | OUTBOUND_STAFF
  | TRANSFER_NAGOYA
  | TRANSFER_SERAYA
  | TRANSFER_BENGKONG
  | TRANSFER_MALALAYANG
  | TRANSFER_KLEAK
  | TRANSFER_PANIKI
  | TRANSFER_ITC
  | VOID
deriving DecidableEq, Repr

/-- Row of table `Order` (fields the pipeline reads/writes). -/
structure OrderRow where
  id : String
  orderNumber : String
  status : OrderStatus
  subtotal : Int
  total : Int
  orderTypeId : String
  outletId : String
  createdAt : Int
deriving DecidableEq, Repr

/-- Row of table `OrderItem`. -/
structure OrderItemRow where
  id : String
  orderId : String
  foodId : String
  quantity : Int
  unitPrice : Int
  totalPrice : Int
  status : OrderItemStatus
deriving DecidableEq, Repr

/-- Row of table `OrderItemOption`. -/
structure OrderItemOptionRow where
  id : String
  orderItemId : String
  optionId : String
  quantity : Int
  unitPrice : Int
  totalPrice : Int
  status : OrderItemStatus
deriving DecidableEq, Repr

/-- Row of table `FoodPrice` (unique on `(foodId, orderTypeId)`). -/
structure FoodPriceRow where
  foodId : String
  orderTypeId : String
  price : Int
deriving DecidableEq, Repr

/-- Row of table `FoodOption` (the fields price resolution reads). -/
structure FoodOptionRow where
  id : String
  extraPrice : Int
deriving DecidableEq, Repr

/-- Row of table `OrderType`. -/
structure OrderTypeRow where
  id : String
  name : String
deriving DecidableEq, Repr

/-- Row of table `OrderTypeDiscount` (unique on `(orderTypeId, outletId)`).
`percentage` is a `Float` such as `0.35` in the schema; it stays symbolic
in every theorem, so the exact carrier is irrelevant. -/
structure OrderTypeDiscountRow where
  orderTypeId : String
  outletId : String
  percentage : Int
  isActive : Bool
deriving DecidableEq, Repr

/-- Row of table `Ingredient`. -/
structure IngredientRow where
  id : String
  outletId : String
  name : String
  stockQty : Int
deriving DecidableEq, Repr

/-- Row of table `FoodIngredient` (bill-of-materials edge). -/
structure FoodIngredientRow where
  foodId : String
  ingredientId : String
  quantity : Int
deriving DecidableEq, Repr

/-- Row of table `IngredientStockLog` (after the migration that added the
nullable `orderId` column). -/
structure StockLogRow where
  ingredientId : String
  outletId : String
  orderId : Option String
  quantity : Int
  type : StockLogType
  transactionDate : Int
deriving DecidableEq, Repr

/-- Row of table `Billing` (after the `add_status_billing` migration). -/
structure BillingRow where
  orderId : String
  orderNumber : String
  outletId : String
  subtotal : Int
  tax : Int
  discount : Int
  total : Int
  amountPaid : Int
  changeGiven : Int
  paymentType : PaymentType
  status : PaymentStatus
  receiptNumber : String
  paidAt : Int
deriving DecidableEq, Repr

/-- Row of `OrderNumberCounter` / `ReceiptNumberCounter` (unique on
`outletId`). -/
structure CounterRow where
  outletId : String
  current : Nat
deriving DecidableEq, Repr

/-- Row of table `DailyCashReconciliation` (unique on `(outletId, date)`;
`date` is stored as milliseconds since the Unix epoch, matching the
JavaScript `Date` values the handlers put in it). -/
structure ReconRow where
  outletId : String
  date : Int
  previousDayBalance : Int
  cashDeposit : Int
  dailyCashRevenue : Int
  adjustmentAmount : Int
  remainingBalance : Int
  isLocked : Bool
  submittedByCashierName : Option String
deriving DecidableEq, Repr

/-- The relational state: one list of rows per table the pipeline touches. -/
structure DB where
  orders : List OrderRow
  orderItems : List OrderItemRow
  orderItemOptions : List OrderItemOptionRow
  foodPrices : List FoodPriceRow
  foodOptions : List FoodOptionRow
  orderTypes : List OrderTypeRow
  orderTypeDiscounts : List OrderTypeDiscountRow
  ingredients : List IngredientRow
  foodIngredients : List FoodIngredientRow
  stockLogs : List StockLogRow
  billings : List BillingRow
  orderNumberCounters : List CounterRow
  receiptNumberCounters : List CounterRow
  recons : List ReconRow
deriving DecidableEq, Repr

/-- The empty database (used as a fallback value when destructuring
`Except` results at concrete inputs). -/
def DB.empty : DB := ⟨[], [], [], [], [], [], [], [], [], [], [], [], [], []⟩

instance : Inhabited DB := ⟨DB.empty⟩

/-! ### Generic list helpers

Prisma `update` on a unique key modifies the single matching row; on lists
this is an update of the first row satisfying the predicate, which agrees
with `List.find?`-based reads even if a malformed state contained
duplicate keys. -/

/-- Update the first element satisfying `p` (identity if none does). -/
def updateFirst (l : List α) (p : α → Bool) (f : α → α) : List α :=
  match l with
  | [] => []
  | x :: xs => if p x then f x :: xs else x :: updateFirst xs p f

/-- Accumulate `v` onto key `k` of an association list, inserting the key
at the end if absent — the behaviour of the JavaScript
`map.set(k, (map.get(k) || 0) + v)` / `acc[k] = (acc[k] || 0) + v`
patterns (JavaScript maps preserve insertion order). -/
def bumpAssoc (m : List (String × Int)) (k : String) (v : Int) : List (String × Int) :=
  if m.any (fun p => p.1 == k) then
    m.map (fun p => if p.1 == k then (p.1, p.2 + v) else p)
  else
    m ++ [(k, v)]

/-- Total value associated with key `k` (0 if absent, summed over
duplicates so that it is well-defined on arbitrary association lists). -/
def sumVals (m : List (String × Int)) (k : String) : Int :=
  ((m.filter (fun p => p.1 == k)).map (fun p => p.2)).sum

/-- The keys of an association list, in order. -/
def assocKeys (m : List (String × Int)) : List String :=
  m.map (fun p => p.1)

deriving instance DecidableEq for Except

/-- `true` on `Except.ok`. -/
def exceptOk : Except ε α → Bool
  | .ok _ => true
  | .error _ => false

/-- Extract an `ok` payload, falling back to a default. -/
def okOr (d : α) : Except ε α → α
  | .ok a => a
  | .error _ => d

/-- `String.padStart(5, "0")` on the decimal representation of a counter
value. -/
def pad5 (n : Nat) : String :=
  let s := toString n
  String.mk (List.replicate (5 - s.length) '0') ++ s

/-! ### Row lookups (Prisma `findUnique` on the various unique keys) -/

/-- `order.findUnique({ where: { id } })`. -/
def orderOf (db : DB) (orderId : String) : Option OrderRow :=
  db.orders.find? (fun o => o.id == orderId)

/-- `orderItem.findUnique({ where: { id } })`. -/
def itemOf (db : DB) (itemId : String) : Option OrderItemRow :=
  db.orderItems.find? (fun it => it.id == itemId)

/-- `orderItemOption.findUnique({ where: { id } })`. -/
def itemOptionOf (db : DB) (optId : String) : Option OrderItemOptionRow :=
  db.orderItemOptions.find? (fun o => o.id == optId)

/-- `foodPrice.findUnique({ where: { foodId_orderTypeId } })`. -/
def priceOf (db : DB) (foodId orderTypeId : String) : Option FoodPriceRow :=
  db.foodPrices.find? (fun p => p.foodId == foodId && p.orderTypeId == orderTypeId)

/-- `foodOption.findUnique({ where: { id } })`. -/
def foodOptionOf (db : DB) (optionId : String) : Option FoodOptionRow :=
  db.foodOptions.find? (fun o => o.id == optionId)

/-- `orderType.findUnique({ where: { id } })`. -/
def orderTypeOf (db : DB) (orderTypeId : String) : Option OrderTypeRow :=
  db.orderTypes.find? (fun t => t.id == orderTypeId)

/-- The stock quantity of the first row with a given ingredient id in an
`Ingredient` table. -/
def stockOfL (l : List IngredientRow) (ingredientId : String) : Option Int :=
  (l.find? (fun r => r.id == ingredientId)).map (fun r => r.stockQty)

/-- `ingredient.findUnique({ where: { id } })` restricted to the stock
quantity — the value every stock assertion is about. -/
def stockOf (db : DB) (ingredientId : String) : Option Int :=
  stockOfL db.ingredients ingredientId

/-- The identifying (non-stock) fields of an `Ingredient` table, used to
state that an operation only changes stock quantities. -/
def ingProj (l : List IngredientRow) : List (String × String × String) :=
  l.map (fun r => (r.id, r.outletId, r.name))

/-- `billing.findUnique({ where: { outletId_receiptNumber, orderNumber } })`
— the void handler's lookup, which filters by the unique pair and by the
order number as an extra safety check. -/
def billingOf (db : DB) (outletId receiptNumber orderNumber : String) : Option BillingRow :=
  db.billings.find? (fun b =>
    b.outletId == outletId && b.receiptNumber == receiptNumber && b.orderNumber == orderNumber)

/-- `dailyCashReconciliation.findUnique({ where: { outletId_date } })`. -/
def reconOf (db : DB) (outletId : String) (date : Int) : Option ReconRow :=
  db.recons.find? (fun r => r.outletId == outletId && r.date == date)

/-! ### Batch update of order items and options

Embedding of the `PATCH /api/orders/[orderId]/items` transaction
(`src/unnamed/part_002` and its duplicate revision `part_003` — identical
logic, the former with extra logging). -/

/-- Request entry for one `OrderItemOption` (`UpdateOptionInput`): the
`status` field is optional and the handler only ever compares it against
the literal string `"CANCELED"`. -/
structure UpdateOptionInput where
  id : String
  quantity : Int
  status : Option String
deriving DecidableEq, Repr

/-- Request entry for one `OrderItem` (`UpdateOrderItemInput`).  A missing
`options` array and an empty one behave identically (`options?.length`),
so both are modelled as `[]`. -/
structure UpdateOrderItemInput where
  id : String
  quantity : Int
  status : Option String
  options : List UpdateOptionInput
deriving DecidableEq, Repr

/-- Inner loop of the batch update over the supplied options of one item
(part_002 lines 105–142): look the option row up by id alone, zero the
quantity when the literal status `"CANCELED"` is supplied (any other or
absent status yields `ACTIVE`), recompute its total from the current
`FoodOption.extraPrice`, write the row, and accumulate the running
`optionTotal`.  The inner `FoodOption` lookup models the `include:
{ option: true }` join (a foreign key in the schema, hence the distinct
error message for the impossible miss). -/
def batchOptionLoop (db : DB) (acc : Int) : List UpdateOptionInput → Except String (DB × Int)
  | [] => .ok (db, acc)
  | opt :: rest =>
    match itemOptionOf db opt.id with
    | none => .error "Option not found"
    | some existingOption =>
      match foodOptionOf db existingOption.optionId with
      | none => .error "FoodOption row missing"
      | some fo =>
        let optQty : Int := if opt.status == some "CANCELED" then 0 else opt.quantity
        let optStatus : OrderItemStatus :=
          if opt.status == some "CANCELED" then .CANCELED else .ACTIVE
        let optTotal := optQty * fo.extraPrice
        let newRows := updateFirst db.orderItemOptions (fun r => r.id == opt.id)
          (fun r => { r with quantity := optQty, unitPrice := fo.extraPrice,
                             totalPrice := optTotal, status := optStatus })
        batchOptionLoop { db with orderItemOptions := newRows } (acc + optTotal) rest

/-- One iteration of the batch update's outer loop (part_002 lines
60–156): the item row is looked up by id alone (no check that it belongs
to the order being updated), the unit price is resolved for the *order's*
order type, the supplied options are processed, and the item row is
rewritten with `newTotal = itemQty * unitPrice + optionTotal` where
`optionTotal` ranges over the options listed in the request only.  The
returned `Int` is `priceDiff = newTotal - existingItem.totalPrice`. -/
def batchItemStep (db : DB) (orderTypeId : String) (item : UpdateOrderItemInput) :
    Except String (DB × Int) :=
  match itemOf db item.id with
  | none => .error "Order item not found"
  | some existingItem =>
    match priceOf db existingItem.foodId orderTypeId with
    | none => .error "No price found for food"
    | some foodPrice =>
      let itemStatus : OrderItemStatus :=
        if item.status == some "CANCELED" then .CANCELED else .ACTIVE
      let itemQty : Int := if itemStatus = .CANCELED then 0 else item.quantity
      let itemBaseTotal := itemQty * foodPrice.price
      match batchOptionLoop db 0 item.options with
      | .error e => .error e
      | .ok (db2, optionTotal) =>
        let newTotal := itemBaseTotal + optionTotal
        let priceDiff := newTotal - existingItem.totalPrice
        let newRows := updateFirst db2.orderItems (fun r => r.id == item.id)
          (fun r => { r with quantity := itemQty, unitPrice := foodPrice.price,
                             totalPrice := newTotal, status := itemStatus })
        .ok ({ db2 with orderItems := newRows }, priceDiff)

/-- Outer loop of the batch update, accumulating `totalPriceDifference`. -/
def batchItemsLoop (db : DB) (orderTypeId : String) (acc : Int) :
    List UpdateOrderItemInput → Except String (DB × Int)
  | [] => .ok (db, acc)
  | it :: rest =>
    match batchItemStep db orderTypeId it with
    | .error e => .error e
    | .ok (db2, diff) => batchItemsLoop db2 orderTypeId (acc + diff) rest

/-- The whole batch-update transaction: resolve the order, process every
request item, then apply the accumulated signed difference as a single
increment to the order's `subtotal` and `total`.  An error anywhere rolls
the transaction back, so an `Except.error` result carries no state. -/
def batchUpdateItems (db : DB) (orderId : String) (items : List UpdateOrderItemInput) :
    Except String DB :=
  match orderOf db orderId with
  | none => .error "Order not found."
  | some existingOrder =>
    match batchItemsLoop db existingOrder.orderTypeId 0 items with
    | .error e => .error e
    | .ok (db2, totalPriceDifference) =>
      let newOrders := updateFirst db2.orders (fun o => o.id == existingOrder.id)
        (fun o => { o with subtotal := o.subtotal + totalPriceDifference,
                           total := o.total + totalPriceDifference })
      .ok { db2 with orders := newOrders }

/-! ### Inventory deduction on payment

Embedding of `deductIngredientsForPaidOrder` from
`src/lib/inventoryActions.ts`. -/

/-- Inner accumulation over one item's bill of materials (inventoryActions
lines 113–125): each `FoodIngredient` edge contributes
`quantityPerFoodUnit * foodQuantitySold` to that ingredient's running
deduction. -/
def addIngredients (acc : List (String × Int)) (itemQty : Int) :
    List FoodIngredientRow → List (String × Int)
  | [] => acc
  | fi :: rest => addIngredients (bumpAssoc acc fi.ingredientId (fi.quantity * itemQty)) itemQty rest

/-- Accumulation over the order's ACTIVE items (inventoryActions lines
99–126).  A food with no linked ingredients contributes nothing (the
source logs a warning and continues). -/
def accumulateItems (db : DB) (acc : List (String × Int)) :
    List OrderItemRow → List (String × Int)
  | [] => acc
  | it :: rest =>
    accumulateItems db
      (addIngredients acc it.quantity (db.foodIngredients.filter (fun fi => fi.foodId == it.foodId)))
      rest

/-- The per-ingredient deduction map derived from an order: quantities
accumulated over the order's ACTIVE items, summed per ingredient before
any stock row is touched. -/
def deductionsOf (db : DB) (orderId : String) : List (String × Int) :=
  accumulateItems db []
    (db.orderItems.filter (fun it =>
      it.orderId == orderId && decide (it.status = OrderItemStatus.ACTIVE)))

/-- The stock-log row `deductIngredientsForPaidOrder` appends for one
accumulated deduction (inventoryActions lines 172–183):  the quantity is
stored positive, `transactionDate` is the *order's creation date*. -/
def mkOutboundLog (outletId orderId : String) (logType : StockLogType) (txDate : Int)
    (entry : String × Int) : StockLogRow :=
  ⟨entry.1, outletId, some orderId, entry.2, logType, txDate⟩

/-- Deduction loop over the accumulated map (inventoryActions lines
129–187): re-read the current stock, abort the transaction when
`stockQty < totalDeduction`, otherwise decrement the stock row and append
an outbound log. -/
def deductLoop (outletId orderId : String) (logType : StockLogType) (txDate : Int)
    (db : DB) : List (String × Int) → Except String DB
  | [] => .ok db
  | entry :: rest =>
    match db.ingredients.find? (fun r => r.id == entry.1) with
    | none => .error "Ingredient not found"
    | some currentIngredient =>
      if currentIngredient.stockQty < entry.2 then
        .error "Insufficient stock"
      else
        let newIngredients := updateFirst db.ingredients (fun r => r.id == entry.1)
          (fun r => { r with stockQty := r.stockQty - entry.2 })
        deductLoop outletId orderId logType txDate
          { db with ingredients := newIngredients,
                    stockLogs := db.stockLogs ++ [mkOutboundLog outletId orderId logType txDate entry] }
          rest

/-- `deductIngredientsForPaidOrder(orderId, outletId, tx)`: designed to be
called inside the billing transaction after the order has been flipped to
PAID; checks the order exists, is PAID, and belongs to the outlet, picks
the outbound log type from the order-type name, then runs the deduction
loop.  The `OrderType` join (`include: { orderType: ... }`) is a foreign
key, hence the distinct error for the impossible miss. -/
def deductIngredientsForPaidOrder (db : DB) (orderId outletId : String) : Except String DB :=
  match orderOf db orderId with
  | none => .error "Order not found. Cannot proceed with ingredient deduction."
  | some order =>
    if order.status ≠ OrderStatus.PAID then
      .error "Order status is not PAID. Cannot deduct ingredients."
    else if order.outletId ≠ outletId then
      .error "Order outlet mismatch. Cannot deduct ingredients."
    else
      match orderTypeOf db order.orderTypeId with
      | none => .error "OrderType row missing"
      | some orderType =>
        let outboundLogType : StockLogType :=
          if orderType.name == "Boss" then .OUTBOUND_BOSS
          else if orderType.name == "Staff" then .OUTBOUND_STAFF
          else .OUTBOUND_NM
        deductLoop outletId orderId outboundLogType order.createdAt db (deductionsOf db orderId)

/-! ### Void / rollback handler

Embedding of `cancelBillingTransaction` from
`src/pages/api/cancelBilling.ts`. -/

/-- Result shape of the void handler: the early-exit success for an
already-void billing, or the rollback summary
`{ orderId, ingredientsRolledBack, logsVoided }`. -/
inductive CancelResult where
  | alreadyCancelled (orderId : String)
  | rolledBack (orderId : String) (ingredientsRolledBack : List (String × Int)) (logsVoided : Nat)
deriving DecidableEq, Repr

/-- Accumulation of the per-ingredient quantities to return to stock
(cancelBilling lines 68–74): `Math.abs(log.quantity)` summed per
ingredient over *all* stock logs matching `(outletId, orderId)`. -/
def buildRollback (acc : List (String × Int)) : List StockLogRow → List (String × Int)
  | [] => acc
  | l :: rest => buildRollback (bumpAssoc acc l.ingredientId |l.quantity|) rest

/-- Stock-restoration loop (cancelBilling lines 77–91): each update targets
`{ id: ingredientId, outletId }`; a missing row raises (Prisma P2025) and
aborts the transaction. -/
def rollbackLoop (outletId : String) (db : DB) : List (String × Int) → Except String DB
  | [] => .ok db
  | entry :: rest =>
    match db.ingredients.find? (fun r => r.id == entry.1 && r.outletId == outletId) with
    | none => .error "Ingredient record not found"
    | some _ =>
      let newIngredients := updateFirst db.ingredients
        (fun r => r.id == entry.1 && r.outletId == outletId)
        (fun r => { r with stockQty := r.stockQty + entry.2 })
      rollbackLoop outletId { db with ingredients := newIngredients } rest

/-- `cancelBillingTransaction(outletId, receiptNumber, orderNumber)`:
look the billing up by `(outletId, receiptNumber)` plus the order-number
safety check; return success without touching anything if it is already
VOID; otherwise restore stock from all `(outletId, orderId)` logs, set
those logs' type to VOID, and set the billing and the order to VOID. -/
def cancelBillingTransaction (db : DB) (outletId receiptNumber orderNumber : String) :
    Except String (DB × CancelResult) :=
  match billingOf db outletId receiptNumber orderNumber with
  | none => .error "Billing record not found."
  | some billingRecord =>
    if billingRecord.status = PaymentStatus.VOID then
      .ok (db, .alreadyCancelled billingRecord.orderId)
    else
      let orderId := billingRecord.orderId
      let stockLogs := db.stockLogs.filter (fun l =>
        l.outletId == outletId && l.orderId == some orderId)
      let rollbackMap := buildRollback [] stockLogs
      match rollbackLoop outletId db rollbackMap with
      | .error e => .error e
      | .ok db2 =>
        let voidedLogs := db2.stockLogs.map (fun l =>
          if l.outletId == outletId && l.orderId == some orderId then
            { l with type := StockLogType.VOID }
          else l)
        let db3 := { db2 with stockLogs := voidedLogs }
        match db3.billings.find? (fun b =>
            b.outletId == outletId && b.receiptNumber == receiptNumber) with
        | none => .error "Billing record to update not found"
        | some _ =>
          let newBillings := updateFirst db3.billings
            (fun b => b.outletId == outletId && b.receiptNumber == receiptNumber)
            (fun b => { b with status := PaymentStatus.VOID })
          let db4 := { db3 with billings := newBillings }
          match orderOf db4 orderId with
          | none => .error "Order record to update not found"
          | some _ =>
            let newOrders := updateFirst db4.orders (fun o => o.id == orderId)
              (fun o => { o with status := OrderStatus.VOID })
            .ok ({ db4 with orders := newOrders },
                 .rolledBack orderId rollbackMap stockLogs.length)

/-! ### Billing creation

Embedding of the `POST /api/billing` transaction
(`src/pages/api/billing.ts`). -/

/-- `receiptNumberCounter.upsert({ where: { outletId }, update: { current:
{ increment: 1 } }, create: { outletId, current: 1 } })` — returns the
post-upsert counter value together with the new state. -/
def upsertReceiptCounter (db : DB) (outletId : String) : DB × Nat :=
  match db.receiptNumberCounters.find? (fun c => c.outletId == outletId) with
  | some c =>
    let newCounters := updateFirst db.receiptNumberCounters
      (fun r => r.outletId == outletId) (fun r => { r with current := r.current + 1 })
    ({ db with receiptNumberCounters := newCounters }, c.current + 1)
  | none =>
    ({ db with receiptNumberCounters := db.receiptNumberCounters ++ [⟨outletId, 1⟩] }, 1)

/-- The discount-calculation block of the billing transaction (billing.ts
lines 44–84), before the final non-negativity clamp: the manual amount
`Number(discount) || 0` verbatim for "Dine In"/"Take Away"; otherwise a
guard against missing outlet/order-type ids, then `order.total *
percentage` when an active `OrderTypeDiscount` row with positive
percentage exists for the `(orderTypeId, outletId)` pair, with the manual
amount as the fallback. -/
def rawDiscountFor (db : DB) (order : OrderRow) (orderTypeName : String)
    (manualDiscountFromRequestBody : Int) : Except String Int :=
  if orderTypeName == "Dine In" || orderTypeName == "Take Away" then
    .ok manualDiscountFromRequestBody
  else if order.outletId == "" || order.orderTypeId == "" then
    .error "Order is missing outletId or orderTypeId for discount calculation."
  else
    match db.orderTypeDiscounts.find? (fun dd =>
        dd.orderTypeId == order.orderTypeId && dd.outletId == order.outletId) with
    | some otd =>
      if otd.isActive ∧ otd.percentage > 0 then .ok (order.total * otd.percentage)
      else .ok manualDiscountFromRequestBody
    | none => .ok manualDiscountFromRequestBody

/-- The billing transaction body (billing.ts lines 27–144): load the
order, check it is SERVED or PAID (re-billing a PAID order is tolerated),
resolve the discount by the strict branch policy, fail on insufficient
payment, allocate a receipt number, create the Billing row (tax hardcoded
to 0, status defaults to PAID), flip the order to PAID, and run the
inventory deduction inside the same transaction.  The manual discount is
`Number(discount) || 0`, i.e. 0 when the request omits it. -/
def createBillingTx (db : DB) (orderId : String) (paymentType : PaymentType)
    (amountPaid : Int) (discountReq : Option Int) (now : Int) :
    Except String (DB × BillingRow) :=
  match orderOf db orderId with
  | none => .error "Order not found"
  | some order =>
    if order.status ≠ OrderStatus.SERVED ∧ order.status ≠ OrderStatus.PAID then
      .error "Order is not ready for billing"
    else
      match orderTypeOf db order.orderTypeId with
      | none => .error "OrderType row missing"
      | some orderType =>
        match rawDiscountFor db order orderType.name (discountReq.getD 0) with
        | .error e => .error e
        | .ok raw =>
          let finalDiscountAmount := max 0 raw
          let finalBillingTotal := order.total - finalDiscountAmount
          let changeGiven := amountPaid - finalBillingTotal
          if changeGiven < 0 then .error "Insufficient payment"
          else
            let (db2, current) := upsertReceiptCounter db order.outletId
            let receiptNumber := pad5 current
            let billing : BillingRow :=
              ⟨order.id, order.orderNumber, order.outletId, order.subtotal, 0,
               finalDiscountAmount, finalBillingTotal, amountPaid, changeGiven,
               paymentType, PaymentStatus.PAID, receiptNumber, now⟩
            let db3 := { db2 with billings := db2.billings ++ [billing] }
            let newOrders := updateFirst db3.orders (fun o => o.id == order.id)
              (fun o => { o with status := OrderStatus.PAID })
            let db4 := { db3 with orders := newOrders }
            match deductIngredientsForPaidOrder db4 order.id order.outletId with
            | .error e => .error e
            | .ok db5 => .ok (db5, billing)

/-- Handler-level semantics of `POST /api/billing`: the body runs inside
`prisma.$transaction`, so a thrown error rolls every write back and the
persistent state is unchanged. -/
def createBilling (db : DB) (orderId : String) (paymentType : PaymentType)
    (amountPaid : Int) (discountReq : Option Int) (now : Int) :
    DB × Except String BillingRow :=
  match createBillingTx db orderId paymentType amountPaid discountReq now with
  | .ok (db2, billing) => (db2, .ok billing)
  | .error e => (db, .error e)

/-! ### Manual daily stock transaction

Embedding of `POST /api/inventory/daily-transaction`
(`src/pages/api/inventory/daily-transaction.ts`). -/

/-- The stock-movement kinds this endpoint treats as deductions. -/
def allowedDeductionTypes : List StockLogType :=
  [.DISCREPANCY, .TRANSFER_NAGOYA, .TRANSFER_SERAYA, .TRANSFER_BENGKONG,
   .TRANSFER_ITC, .TRANSFER_PANIKI, .TRANSFER_KLEAK, .TRANSFER_MALALAYANG]

/-- All transaction kinds this endpoint accepts. -/
def allAllowedTransactionTypes : List StockLogType :=
  .INBOUND :: allowedDeductionTypes

/-- `setUTCHours(0, 0, 0, 0)` on a millisecond timestamp: floor to the
start of the UTC day. -/
def utcFloorDay (t : Int) : Int :=
  t - t % 86400000

/-- The daily-transaction endpoint: validate the input (positive quantity,
allowed type), reject a duplicate log for the same ingredient, outlet,
type and UTC day (409), apply the signed stock change, abort if a
deduction drove the stock negative (the check runs on the updated row
inside the transaction, so the negative value is never committed), and
append the log with the original positive quantity. -/
def dailyTransaction (db : DB) (ingredientId : String) (quantity : Int)
    (type : StockLogType) (dateMs : Int) (outletId : String) : Except String DB :=
  if quantity ≤ 0 then .error "Invalid input"
  else if type ∉ allAllowedTransactionTypes then .error "Invalid input"
  else
    match db.stockLogs.find? (fun l =>
        l.ingredientId == ingredientId && l.outletId == outletId &&
        decide (l.type = type) && decide (utcFloorDay dateMs ≤ l.transactionDate) &&
        decide (l.transactionDate < utcFloorDay dateMs + 86400000)) with
    | some _ => .error "A record for this ingredient and outlet already exists for the selected date."
    | none =>
      match db.ingredients.find? (fun r => r.id == ingredientId) with
      | none => .error "Ingredient or Outlet not found."
      | some ing =>
        if ing.stockQty + (if type ∈ allowedDeductionTypes then -quantity else quantity) < 0 ∧
            type ∈ allowedDeductionTypes then
          .error "Insufficient stock at this outlet"
        else
          let newIngredients := updateFirst db.ingredients (fun r => r.id == ingredientId)
            (fun r => { r with stockQty :=
              r.stockQty + (if type ∈ allowedDeductionTypes then -quantity else quantity) })
          .ok { db with ingredients := newIngredients,
                        stockLogs := db.stockLogs ++
                          [⟨ingredientId, outletId, none, quantity, type, utcFloorDay dateMs⟩] }

/-! ### Date-key normalization

The reconciliation endpoints turn a `YYYY-MM-DD` request string into a
`DateTime` lookup key.  Both parsing routes (`new Date(Date.UTC(y, m-1,
d))` on the submit path and `new Date("YYYY-MM-DD")` on the unlock path)
yield the UTC-midnight instant of the civil date, modelled through the
standard days-from-civil conversion.  The unlock path then applies
`setHours(0, 0, 0, 0)`, which floors to *host-local* midnight; a host
timezone is modelled as a fixed offset in minutes east of UTC (no
daylight-saving transition at the instants involved). -/

/-- Days between 1970-01-01 and the civil date `(y, m, d)` (proleptic
Gregorian; Howard Hinnant's `days_from_civil`). -/
def daysFromCivil (y m d : Int) : Int :=
  let yy := if m ≤ 2 then y - 1 else y
  let era := Int.fdiv yy 400
  let yoe := yy - era * 400
  let mp := Int.emod (m + 9) 12
  let doy := Int.fdiv (153 * mp + 2) 5 + d - 1
  let doe := yoe * 365 + Int.fdiv yoe 4 - Int.fdiv yoe 100 + doy
  era * 146097 + doe - 719468

/-- The submit path's lookup key (part_004 lines 72–78):
`new Date(Date.UTC(parts[0], parts[1] - 1, parts[2]))`, in milliseconds
since the epoch. -/
def submitDateKey (y m d : Int) : Int :=
  86400000 * daysFromCivil y m d

/-- `date.setHours(0, 0, 0, 0)` on a millisecond timestamp under a host
timezone that is `tzOffsetMin` minutes east of UTC: convert to local wall
time, floor to the local day, convert back. -/
def setHoursZero (t : Int) (tzOffsetMin : Int) : Int :=
  let loc := t + tzOffsetMin * 60000
  loc - loc % 86400000 - tzOffsetMin * 60000

/-- The unlock path's lookup key (unlock-cash-reconciliation.ts lines
49–57): `new Date("YYYY-MM-DD")` parses to UTC midnight, then
`setHours(0, 0, 0, 0)` floors to host-local midnight. -/
def unlockDateKey (y m d : Int) (tzOffsetMin : Int) : Int :=
  setHoursZero (submitDateKey y m d) tzOffsetMin

/-! ### Daily cash reconciliation submission

Embedding of `POST /api/reports/submit-daily-cash-reconciliation` in its
latest revision (`src/unnamed/part_004`, the one with the `adjustment`
field and the VOID-billing exclusion).  `paymentRemarks` (an opaque JSON
blob) is not modelled. -/

/-- Whether a billing row counts toward the day's cash revenue (part_004
lines 99–122): same outlet, paid within `[startOfDay, startOfDay + 1 day
- 1 ms]`, CASH payment, status not VOID, and the order's order-type name
not in `["Boss", "Staff"]` (resolved through the `order.orderType`
relation; a row whose relations are missing cannot match the relation
filter). -/
def countsAsCashRevenue (db : DB) (outletId : String) (startOfDayUTC : Int)
    (b : BillingRow) : Bool :=
  b.outletId == outletId &&
  decide (startOfDayUTC ≤ b.paidAt) &&
  decide (b.paidAt ≤ startOfDayUTC + 24 * 60 * 60 * 1000 - 1) &&
  decide (b.paymentType = PaymentType.CASH) &&
  decide (b.status ≠ PaymentStatus.VOID) &&
  (match orderOf db b.orderId with
   | none => false
   | some o =>
     match orderTypeOf db o.orderTypeId with
     | none => false
     | some t => t.name != "Boss" && t.name != "Staff")

/-- The row update the submit handler applies on resubmission: overwrite
the derived fields, lock the row, and preserve the previously recorded
cashier name when the caller is an admin and that name is present and
non-empty (JavaScript truthiness of `existing?.submittedByCashierName`;
the `existing` row the source consults is the same unique row being
updated, so it is read here from the row itself). -/
def submitReconUpdate (previousDayBalance dailyCashRevenue validatedAdjustment
    cashDeposit : Int) (submittedByCashierName : String) (isAdmin : Bool)
    (r : ReconRow) : ReconRow :=
  { r with previousDayBalance := previousDayBalance,
           cashDeposit := cashDeposit,
           dailyCashRevenue := dailyCashRevenue,
           remainingBalance := previousDayBalance + dailyCashRevenue +
             validatedAdjustment - cashDeposit,
           isLocked := true,
           adjustmentAmount := validatedAdjustment,
           submittedByCashierName :=
             if isAdmin && (match r.submittedByCashierName with
                            | some s => s != ""
                            | none => false) then r.submittedByCashierName
             else some submittedByCashierName }

/-- The submit handler after input validation: compute the previous day's
balance (0 when that row is absent), the day's cash revenue, the
remaining balance, then upsert the reconciliation row with
`isLocked := true`.  On an admin resubmission the previously recorded
cashier name is preserved when it is present and non-empty (JavaScript
truthiness of `existing?.submittedByCashierName`). -/
def submitDailyCashReconciliation (db : DB) (outletId : String) (y m d : Int)
    (cashDeposit : Int) (submittedByCashierName : String) (adjustment : Option Int)
    (isAdmin : Bool) : DB :=
  let startOfDayUTC := submitDateKey y m d
  let previousDayUTC := startOfDayUTC - 86400000
  let previousDayBalance :=
    match reconOf db outletId previousDayUTC with
    | some r => r.remainingBalance
    | none => 0
  let dailyCashRevenue :=
    ((db.billings.filter (countsAsCashRevenue db outletId startOfDayUTC)).map
      (fun b => b.total)).sum
  let validatedAdjustment := adjustment.getD 0
  let remainingBalance :=
    previousDayBalance + dailyCashRevenue + validatedAdjustment - cashDeposit
  match reconOf db outletId startOfDayUTC with
  | some _ =>
    let newRecons := updateFirst db.recons
      (fun r => r.outletId == outletId && r.date == startOfDayUTC)
      (submitReconUpdate previousDayBalance dailyCashRevenue validatedAdjustment
        cashDeposit submittedByCashierName isAdmin)
    { db with recons := newRecons }
  | none =>
    { db with recons := db.recons ++
        [⟨outletId, startOfDayUTC, previousDayBalance, cashDeposit, dailyCashRevenue,
          adjustment.getD 0, remainingBalance, true, some submittedByCashierName⟩] }

/-! ### Order creation and appending items

Embeddings of `POST /api/orders` (`src/pages/api/orders.ts`) and
`POST /api/orders/[orderId]/add-item`
(`src/pages/api/orders/[orderId]/add-item.ts`).  Both enrich the incoming
items with prices and create `OrderItem` rows with nested
`OrderItemOption` rows.  Row ids are produced by the database (uuid); they
are modelled as explicit fields of the request, with freshness expressed
as hypotheses where a theorem needs it. -/

/-- Option part of a new-item request, together with the uuid the database
will assign to the created `OrderItemOption` row. -/
structure NewOptionInput where
  rowId : String
  optionId : String
  quantity : Int
deriving DecidableEq, Repr

/-- New-item request (`{ foodId, quantity, options }`), together with the
uuid the database will assign to the created `OrderItem` row. -/
structure NewOrderItemInput where
  rowId : String
  foodId : String
  quantity : Int
  options : List NewOptionInput
deriving DecidableEq, Repr

/-- Enrichment of one item's options (orders.ts lines 91–111, add-item.ts
lines 98–134): resolve each option's `extraPrice`, compute its total, and
accumulate `itemOptionsTotal`.  With `validate := true` (the add-item
route) an option with non-positive quantity or empty id is rejected
first. -/
def enrichOptionsLoop (db : DB) (itemRowId : String) (validate : Bool)
    (acc : List OrderItemOptionRow) (accTotal : Int) :
    List NewOptionInput → Except String (List OrderItemOptionRow × Int)
  | [] => .ok (acc, accTotal)
  | opt :: rest =>
    if validate ∧ (opt.optionId = "" ∨ opt.quantity ≤ 0) then
      .error "Invalid option data"
    else
      match foodOptionOf db opt.optionId with
      | none => .error "Invalid optionId"
      | some foodOption =>
        let optionTotalPrice := foodOption.extraPrice * opt.quantity
        enrichOptionsLoop db itemRowId validate
          (acc ++ [⟨opt.rowId, itemRowId, opt.optionId, opt.quantity,
                    foodOption.extraPrice, optionTotalPrice, OrderItemStatus.ACTIVE⟩])
          (accTotal + optionTotalPrice) rest

/-- Enrichment of the requested items (orders.ts lines 70–124, add-item.ts
lines 60–163): resolve the unit price for `(foodId, orderTypeId)`, enrich
the options, and build the `OrderItem` row with
`totalPrice = unitPrice * quantity + itemOptionsTotal` and its nested
option rows.  The accumulated `Int` is the sum of the created items'
totals (`subtotal` on the create route, `totalAddedPrice` on the add-item
route). -/
def enrichItemsLoop (db : DB) (orderId orderTypeId : String) (validate : Bool)
    (acc : List (OrderItemRow × List OrderItemOptionRow)) (accTotal : Int) :
    List NewOrderItemInput →
    Except String (List (OrderItemRow × List OrderItemOptionRow) × Int)
  | [] => .ok (acc, accTotal)
  | item :: rest =>
    if validate ∧ (item.foodId = "" ∨ item.quantity ≤ 0) then
      .error "Invalid food item data"
    else
      match priceOf db item.foodId orderTypeId with
      | none => .error "No price found for food and order type"
      | some foodPrice =>
        match enrichOptionsLoop db item.rowId validate [] 0 item.options with
        | .error e => .error e
        | .ok (optionRows, itemOptionsTotal) =>
          let itemUnitPrice := foodPrice.price
          let orderItemTotalPrice := itemUnitPrice * item.quantity + itemOptionsTotal
          enrichItemsLoop db orderId orderTypeId validate
            (acc ++ [(⟨item.rowId, orderId, item.foodId, item.quantity, itemUnitPrice,
                       orderItemTotalPrice, OrderItemStatus.ACTIVE⟩, optionRows)])
            (accTotal + orderItemTotalPrice) rest

/-- `orderNumberCounter.upsert(...)` (orders.ts lines 136–140). -/
def upsertOrderCounter (db : DB) (outletId : String) : DB × Nat :=
  match db.orderNumberCounters.find? (fun c => c.outletId == outletId) with
  | some c =>
    let newCounters := updateFirst db.orderNumberCounters
      (fun r => r.outletId == outletId) (fun r => { r with current := r.current + 1 })
    ({ db with orderNumberCounters := newCounters }, c.current + 1)
  | none =>
    ({ db with orderNumberCounters := db.orderNumberCounters ++ [⟨outletId, 1⟩] }, 1)

/-- `POST /api/orders`: validate the identifying fields, require a dining
table for "Dine In", enrich the items (this route performs no per-item
quantity validation), allocate the next order number, and create the
order (status PENDING) with its nested items and options;
`subtotal = Σ item totals` and `total = subtotal`. -/
def createOrder (db : DB) (diningTableId : Option String)
    (waiterId outletId orderTypeId : String) (items : List NewOrderItemInput)
    (newOrderId : String) (createdAt : Int) : Except String DB :=
  if waiterId = "" then .error "Missing waiterId"
  else if outletId = "" then .error "Missing outletId"
  else if orderTypeId = "" then .error "Missing orderTypeId"
  else
    match orderTypeOf db orderTypeId with
    | none => .error "Invalid orderTypeId"
    | some orderType =>
      if orderType.name = "Dine In" ∧ diningTableId.isNone then
        .error "Dine In orders require diningTableId"
      else
        match enrichItemsLoop db newOrderId orderTypeId false [] 0 items with
        | .error e => .error e
        | .ok (pairs, subtotal) =>
          let total := subtotal
          let db2 := (upsertOrderCounter db outletId).1
          let orderNumber := pad5 (upsertOrderCounter db outletId).2
          let newOrder : OrderRow :=
            ⟨newOrderId, orderNumber, OrderStatus.PENDING, subtotal, total,
             orderTypeId, outletId, createdAt⟩
          .ok { db2 with
                  orders := db2.orders ++ [newOrder],
                  orderItems := db2.orderItems ++ pairs.map (fun p => p.1),
                  orderItemOptions := db2.orderItemOptions ++ (pairs.map (fun p => p.2)).flatten }

/-- `POST /api/orders/[orderId]/add-item`: resolve the order, enrich the
new items against the order's order type (with per-item validation),
create the rows, and *increment* the order's `subtotal` and `total` by
the sum of the newly added item totals (not a full recompute). -/
def addItemsToOrder (db : DB) (orderId : String) (items : List NewOrderItemInput) :
    Except String DB :=
  match orderOf db orderId with
  | none => .error "Order not found."
  | some existingOrder =>
    match enrichItemsLoop db orderId existingOrder.orderTypeId true [] 0 items with
    | .error e => .error e
    | .ok (pairs, totalAddedPrice) =>
      let newOrders := updateFirst db.orders (fun o => o.id == existingOrder.id)
        (fun o => { o with subtotal := o.subtotal + totalAddedPrice,
                           total := o.total + totalAddedPrice })
      .ok { db with
              orders := newOrders,
              orderItems := db.orderItems ++ pairs.map (fun p => p.1),
              orderItemOptions := db.orderItemOptions ++ (pairs.map (fun p => p.2)).flatten }

/-! ### Specification-side definitions

These definitions transcribe the *specification's* wording of the
properties under scrutiny; the theorems below relate them to the code
embeddings above. -/

/-- Sum of the stored totals of an item's non-canceled options, over a
given `OrderItemOption` table. -/
def optionTotalSumL (options : List OrderItemOptionRow) (itemId : String) : Int :=
  ((options.filter (fun o =>
      o.orderItemId == itemId && decide (o.status = OrderItemStatus.ACTIVE))).map
    (fun o => o.totalPrice)).sum

/-- Sum of the stored totals of an item's non-canceled options. -/
def optionTotalSum (db : DB) (itemId : String) : Int :=
  optionTotalSumL db.orderItemOptions itemId

/-- Sum of the stored totals of an order's ACTIVE items, over a given
`OrderItem` table. -/
def activeItemSumL (items : List OrderItemRow) (orderId : String) : Int :=
  ((items.filter (fun it =>
      it.orderId == orderId && decide (it.status = OrderItemStatus.ACTIVE))).map
    (fun it => it.totalPrice)).sum

/-- Sum of the stored totals of an order's ACTIVE items. -/
def activeItemSum (db : DB) (orderId : String) : Int :=
  activeItemSumL db.orderItems orderId

/-- The totals-consistency invariant of §8 of the specification: for every
non-voided order, `total = subtotal = Σ(active OrderItem.totalPrice)`,
and every ACTIVE item's `totalPrice` decomposes as
`quantity * unitPrice + Σ(its non-canceled option totals)`. -/
def totalsInvariant (db : DB) : Prop :=
  (∀ o ∈ db.orders, o.status ≠ OrderStatus.VOID →
      o.total = o.subtotal ∧ o.subtotal = activeItemSum db o.id) ∧
  (∀ it ∈ db.orderItems, it.status = OrderItemStatus.ACTIVE →
      it.totalPrice = it.quantity * it.unitPrice + optionTotalSum db it.id)

instance (db : DB) : Decidable (totalsInvariant db) := by
  unfold totalsInvariant; infer_instance

/-- The discount policy of §4.3 of the specification, as written there: a
manual amount verbatim for "Dine In"/"Take Away"; otherwise
`order.total * percentage` when an active `OrderTypeDiscount` with
positive percentage exists for `(orderTypeId, outletId)`, else the manual
amount; clamped to be non-negative in all cases. -/
def discountPolicy (db : DB) (order : OrderRow) (orderTypeName : String)
    (manualDiscount : Int) : Int :=
  if orderTypeName = "Dine In" ∨ orderTypeName = "Take Away" then
    max 0 manualDiscount
  else
    match db.orderTypeDiscounts.find? (fun dd =>
        dd.orderTypeId == order.orderTypeId && dd.outletId == order.outletId) with
    | some otd =>
      if otd.isActive ∧ otd.percentage > 0 then max 0 (order.total * otd.percentage)
      else max 0 manualDiscount
    | none => max 0 manualDiscount

/-- The new total a batch-update request entry assigns to one listed
option, read off the pre-update state: zero quantity when the literal
status "CANCELED" is supplied, times the option's current `extraPrice`.
`none` when a lookup misses. -/
def optEntryTotal (db : DB) (opt : UpdateOptionInput) : Option Int :=
  match itemOptionOf db opt.id with
  | none => none
  | some r =>
    match foodOptionOf db r.optionId with
    | none => none
    | some fo =>
      some ((if opt.status == some "CANCELED" then 0 else opt.quantity) * fo.extraPrice)

/-- Sum of `optEntryTotal` over the request-listed options. -/
def optEntriesTotal (db : DB) : List UpdateOptionInput → Option Int
  | [] => some 0
  | o :: rest =>
    match optEntryTotal db o, optEntriesTotal db rest with
    | some a, some b => some (a + b)
    | _, _ => none

/-- The total the batch update assigns to a touched item, read off the
pre-update state: resolved unit price times the (status-adjusted)
requested quantity, plus the totals of the options *listed in the
request* (and only those). -/
def expectedNewTotal (db : DB) (orderTypeId : String) (e : UpdateOrderItemInput) :
    Option Int :=
  match itemOf db e.id with
  | none => none
  | some row =>
    match priceOf db row.foodId orderTypeId with
    | none => none
    | some fp =>
      match optEntriesTotal db e.options with
      | none => none
      | some s =>
        some ((if e.status == some "CANCELED" then 0 else e.quantity) * fp.price + s)

/-- The identifying fields of the `OrderItemOption` table: row id and the
referenced `FoodOption` — the data a batch update never changes. -/
def optProj (db : DB) : List (String × String) :=
  db.orderItemOptions.map (fun r => (r.id, r.optionId))

/-- The identifying fields of the `OrderItem` table: row id and the
referenced `Food` — the data a batch update never changes. -/
def itemProj (db : DB) : List (String × String) :=
  db.orderItems.map (fun r => (r.id, r.foodId))

/-- The previous-day balance input of the reconciliation derivation (§4.7):
the prior day's `remainingBalance`, 0 if that row is absent. -/
def previousDayBalanceSpec (db : DB) (outletId : String) (startOfDayUTC : Int) : Int :=
  match reconOf db outletId (startOfDayUTC - 86400000) with
  | some r => r.remainingBalance
  | none => 0

/-- The daily cash revenue input of the reconciliation derivation (§4.7):
the day's CASH-type, non-VOID billing totals of the outlet, excluding
orders whose order-type name is "Boss" or "Staff"; the day is the
half-open UTC interval `[startOfDay, startOfDay + 24h)`. -/
def dailyCashRevenueSpec (db : DB) (outletId : String) (startOfDayUTC : Int) : Int :=
  ((db.billings.filter (fun b =>
      b.outletId == outletId &&
      decide (startOfDayUTC ≤ b.paidAt) &&
      decide (b.paidAt < startOfDayUTC + 86400000) &&
      decide (b.paymentType = PaymentType.CASH) &&
      decide (b.status ≠ PaymentStatus.VOID) &&
      (match orderOf db b.orderId with
       | none => false
       | some o =>
         match orderTypeOf db o.orderTypeId with
         | none => false
         | some t => t.name != "Boss" && t.name != "Staff"))).map
    (fun b => b.total)).sum

/-! ### Concrete instances used by the claim witnesses and counterexamples -/

/-- Stock non-negativity witness state: one paid order for two units of a
food that consumes two units of ingredient `g1` per unit, with five units
in stock. -/
def c2DeductDb : DB :=
  { DB.empty with
      orders := [⟨"o1", "00001", .PAID, 20000, 20000, "t1", "u1", 0⟩],
      orderItems := [⟨"i1", "o1", "f1", 2, 10000, 20000, .ACTIVE⟩],
      orderTypes := [⟨"t1", "Dine In"⟩],
      foodIngredients := [⟨"f1", "g1", 2⟩],
      ingredients := [⟨"g1", "u1", "chicken", 5⟩] }

/-- Stock non-negativity witness state for the insufficiency branch: the
same order now needs 4 units but only 3 are in stock. -/
def c2ShortDb : DB :=
  { c2DeductDb with ingredients := [⟨"g1", "u1", "chicken", 3⟩] }

/-- Daily-transaction witness state: a single ingredient with stock 5. -/
def c2DailyDb : DB :=
  { DB.empty with ingredients := [⟨"g1", "u1", "chicken", 5⟩] }

/-- Round-trip witness state: a paid order whose billing is on file,
ready to be deducted and then voided. -/
def c5Db : DB :=
  { DB.empty with
      orders := [⟨"o1", "00001", .PAID, 20000, 20000, "t1", "u1", 0⟩],
      orderItems := [⟨"i1", "o1", "f1", 2, 10000, 20000, .ACTIVE⟩],
      orderTypes := [⟨"t1", "Dine In"⟩],
      foodIngredients := [⟨"f1", "g1", 2⟩],
      ingredients := [⟨"g1", "u1", "chicken", 5⟩],
      billings := [⟨"o1", "00001", "u1", 20000, 0, 0, 20000, 20000, 0,
                    .CASH, .PAID, "00001", 50⟩] }

/-- The state after deducting `c5Db`'s order. -/
def c5Db1 : DB := okOr DB.empty (deductIngredientsForPaidOrder c5Db "o1" "u1")

/-- The state after voiding the billing of `c5Db1`. -/
def c5Db2 : DB :=
  (okOr (DB.empty, CancelResult.alreadyCancelled "none")
    (cancelBillingTransaction c5Db1 "u1" "00001" "00001")).1

/-- The response of voiding the billing of `c5Db1`. -/
def c5Res : CancelResult :=
  (okOr (DB.empty, CancelResult.alreadyCancelled "none")
    (cancelBillingTransaction c5Db1 "u1" "00001" "00001")).2

/-- Void-idempotence witness state: a billing that is already VOID. -/
def c6Db : DB :=
  { DB.empty with
      orders := [⟨"o1", "00001", .VOID, 20000, 20000, "t1", "u1", 0⟩],
      billings := [⟨"o1", "00001", "u1", 20000, 0, 0, 20000, 20000, 0,
                    .CASH, .VOID, "00001", 50⟩],
      ingredients := [⟨"g1", "u1", "chicken", 5⟩],
      stockLogs := [⟨"g1", "u1", some "o1", 4, .VOID, 0⟩] }

/-- Billing-scenario witness state: a served order of total 22000 at a
"Dine In" order type (no items, so the inventory deduction is a no-op). -/
def c3Db : DB :=
  { DB.empty with
      orders := [⟨"o1", "00001", .SERVED, 22000, 22000, "t1", "u1", 0⟩],
      orderTypes := [⟨"t1", "Dine In"⟩] }

/-- The billing created for `c3Db` with `amountPaid = 25000` and a manual
discount of 2000. -/
def c3Bill : BillingRow :=
  (okOr (DB.empty, (⟨"", "", "", 0, 0, 0, 0, 0, 0, .CASH, .PAID, "", 0⟩ : BillingRow))
    (createBillingTx c3Db "o1" .CASH 25000 (some 2000) 77)).2

/-- Billing-failure witness state: a served order of total 22000. -/
def c4Db : DB :=
  { DB.empty with
      orders := [⟨"o1", "00001", .SERVED, 22000, 22000, "t1", "u1", 0⟩],
      orderTypes := [⟨"t1", "Dine In"⟩] }

/-- Billing-failure witness state: the same order still PENDING. -/
def c4BadDb : DB :=
  { c4Db with orders := [⟨"o1", "00001", .PENDING, 22000, 22000, "t1", "u1", 0⟩] }

/-- Totals-invariant state: one pending order with one active item that
carries one active option (`totalPrice = 2*10000 + 2000`). -/
def c1Db : DB :=
  { DB.empty with
      orders := [⟨"o1", "00001", .PENDING, 22000, 22000, "t1", "u1", 0⟩],
      orderItems := [⟨"i1", "o1", "f1", 2, 10000, 22000, .ACTIVE⟩],
      orderItemOptions := [⟨"p1", "i1", "x1", 1, 2000, 2000, .ACTIVE⟩],
      foodPrices := [⟨"f1", "t1", 10000⟩],
      foodOptions := [⟨"x1", 2000⟩] }

/-- Catalog-only state used to exercise order creation. -/
def c1BaseDb : DB :=
  { DB.empty with
      orderTypes := [⟨"t1", "Take Away"⟩],
      foodPrices := [⟨"f1", "t1", 10000⟩],
      foodOptions := [⟨"x1", 2000⟩] }

/-- The state after creating an order on `c1BaseDb` (one item of two units
with one option: `subtotal = 2*10000 + 1*2000`). -/
def c1CreateDb : DB :=
  okOr DB.empty
    (createOrder c1BaseDb none "w1" "u1" "t1" [⟨"i1", "f1", 2, [⟨"p1", "x1", 1⟩]⟩] "o1" 0)

/-- The state after appending one option-free item to the created order. -/
def c1AddDb : DB :=
  okOr DB.empty (addItemsToOrder c1CreateDb "o1" [⟨"i2", "f1", 1, []⟩])

/-- The state after a batch update of `c1Db`'s item that lists its option. -/
def c1BatchDb : DB :=
  okOr DB.empty (batchUpdateItems c1Db "o1" [⟨"i1", 3, none, [⟨"p1", 1, none⟩]⟩])

/-- Cross-order state: the batch target `o1` has no items, while item `i2`
belongs to the other order `o2`. -/
def c9Db : DB :=
  { DB.empty with
      orders := [⟨"o1", "00001", .PENDING, 0, 0, "t1", "u1", 0⟩,
                 ⟨"o2", "00002", .PENDING, 10000, 10000, "t1", "u1", 0⟩],
      orderItems := [⟨"i2", "o2", "f1", 1, 10000, 10000, .ACTIVE⟩],
      foodPrices := [⟨"f1", "t1", 10000⟩] }

/-- Reactivation state: order `o1` holds one CANCELED item (zeroed quantity
and total, as the batch handler leaves canceled rows). -/
def c10Db : DB :=
  { DB.empty with
      orders := [⟨"o1", "00001", .PENDING, 0, 0, "t1", "u1", 0⟩],
      orderItems := [⟨"i1", "o1", "f1", 0, 10000, 0, .CANCELED⟩],
      foodPrices := [⟨"f1", "t1", 10000⟩] }

/-! ## Generic lemmas about the list helpers -/

theorem find?_congr {α : Type} {l : List α} {p q : α → Bool}
    (h : ∀ x ∈ l, p x = q x) : l.find? p = l.find? q := by
  induction l with
  | nil => rfl
  | cons a t ih =>
    have ha := h a (List.mem_cons_self a t)
    have ht := ih (fun x hx => h x (List.mem_cons_of_mem a hx))
    cases hpa : p a with
    | true => simp [List.find?, hpa, ← ha]
    | false => simp [List.find?, hpa, ← ha, ht]

theorem updateFirst_congr {α : Type} {l : List α} {p q : α → Bool} {f : α → α}
    (h : ∀ x ∈ l, p x = q x) : updateFirst l p f = updateFirst l q f := by
  induction l with
  | nil => rfl
  | cons a t ih =>
    have ha := h a (List.mem_cons_self a t)
    have ht := ih (fun x hx => h x (List.mem_cons_of_mem a hx))
    cases hpa : p a with
    | true => simp [updateFirst, hpa, ← ha]
    | false => simp [updateFirst, hpa, ← ha, ht]

theorem find?_updateFirst_self {α : Type} {l : List α} {p : α → Bool} {f : α → α}
    (hf : ∀ x, p (f x) = p x) :
    (updateFirst l p f).find? p = (l.find? p).map f := by
  induction l with
  | nil => rfl
  | cons a t ih =>
    cases hpa : p a with
    | true => simp [updateFirst, List.find?, hpa, hf a]
    | false => simp [updateFirst, List.find?, hpa, ih]

theorem find?_updateFirst_ne {α : Type} {l : List α} {p q : α → Bool} {f : α → α}
    (h1 : ∀ x, q (f x) = q x) (h2 : ∀ x, p x = true → q x = false) :
    (updateFirst l p f).find? q = l.find? q := by
  induction l with
  | nil => rfl
  | cons a t ih =>
    cases hpa : p a with
    | true => simp [updateFirst, List.find?, hpa, h1 a, h2 a hpa]
    | false =>
      cases hqa : q a with
      | true => simp [updateFirst, List.find?, hpa, hqa]
      | false => simp [updateFirst, List.find?, hpa, hqa, ih]

theorem mem_updateFirst {α : Type} {l : List α} {p : α → Bool} {f : α → α} {x : α}
    (hx : x ∈ updateFirst l p f) :
    x ∈ l ∨ ∃ y, l.find? p = some y ∧ x = f y := by
  induction l with
  | nil => simp [updateFirst] at hx
  | cons a t ih =>
    cases hpa : p a with
    | true =>
      simp only [updateFirst, hpa, if_pos rfl] at hx
      rcases List.mem_cons.mp hx with h | h
      · exact Or.inr ⟨a, by simp [List.find?, hpa], h⟩
      · exact Or.inl (List.mem_cons_of_mem a h)
    | false =>
      simp only [updateFirst, hpa, Bool.false_eq_true, if_false] at hx
      rcases List.mem_cons.mp hx with h | h
      · exact Or.inl (h ▸ List.mem_cons_self a t)
      · rcases ih h with h' | ⟨y, hy, hxy⟩
        · exact Or.inl (List.mem_cons_of_mem a h')
        · exact Or.inr ⟨y, by simp [List.find?, hpa, hy], hxy⟩

theorem updateFirst_decomp {α : Type} {l : List α} {p : α → Bool} {f : α → α} {a : α}
    (h : l.find? p = some a) :
    ∃ l₁ l₂, l = l₁ ++ a :: l₂ ∧ (∀ y ∈ l₁, p y = false) ∧
      updateFirst l p f = l₁ ++ f a :: l₂ := by
  induction l with
  | nil => simp [List.find?] at h
  | cons b t ih =>
    cases hpb : p b with
    | true =>
      simp only [List.find?, hpb] at h
      have hba : b = a := Option.some.inj h
      subst hba
      exact ⟨[], t, rfl, by intro y hy; simp at hy, by simp [updateFirst, hpb]⟩
    | false =>
      simp only [List.find?, hpb] at h
      obtain ⟨l₁, l₂, he, hfalse, hu⟩ := ih h
      refine ⟨b :: l₁, l₂, by rw [he]; rfl, ?_, ?_⟩
      · intro y hy
        rcases List.mem_cons.mp hy with hyb | hyl
        · exact hyb ▸ hpb
        · exact hfalse y hyl
      · simp only [updateFirst, hpb, Bool.false_eq_true, if_false, hu]
        rfl

theorem map_updateFirst {α β : Type} {l : List α} {p : α → Bool} {f : α → α} {g : α → β}
    (hg : ∀ x, g (f x) = g x) : (updateFirst l p f).map g = l.map g := by
  induction l with
  | nil => rfl
  | cons a t ih =>
    cases hpa : p a with
    | true => simp [updateFirst, hpa, hg a]
    | false => simp [updateFirst, hpa, ih]

theorem find?_map_proj {α β : Type} {f : α → β} {l l' : List α}
    (h : l.map f = l'.map f) (p : β → Bool) :
    (l.find? (fun x => p (f x))).map f = (l'.find? (fun x => p (f x))).map f := by
  induction l generalizing l' with
  | nil =>
    cases l' with
    | nil => rfl
    | cons b t' => simp at h
  | cons a t ih =>
    cases l' with
    | nil => simp at h
    | cons b t' =>
      simp only [List.map_cons, List.cons.injEq] at h
      obtain ⟨hab, ht⟩ := h
      have hpb : p (f b) = p (f a) := by rw [hab]
      cases hpa : p (f a) with
      | true => simp [List.find?, hpa, hpa ▸ hpb, hab]
      | false => simp [List.find?, hpa, hpa ▸ hpb, ih ht]

theorem bumpAssoc_of_not_mem {m : List (String × Int)} {k : String} {v : Int}
    (h : m.any (fun p => p.1 == k) = false) : bumpAssoc m k v = m ++ [(k, v)] := by
  simp [bumpAssoc, h]

theorem assocKeys_bumpAssoc {m : List (String × Int)} {k : String} {v : Int} :
    assocKeys (bumpAssoc m k v) =
      if m.any (fun p => p.1 == k) then assocKeys m else assocKeys m ++ [k] := by
  unfold bumpAssoc assocKeys
  by_cases h : m.any (fun p => p.1 == k)
  · rw [if_pos h, if_pos h, List.map_map]
    apply List.map_congr_left
    intro p _
    by_cases hp : p.1 = k <;> simp [hp]
  · rw [if_neg h, if_neg h]
    simp

theorem nodup_assocKeys_bumpAssoc {m : List (String × Int)} {k : String} {v : Int}
    (h : (assocKeys m).Nodup) : (assocKeys (bumpAssoc m k v)).Nodup := by
  rw [assocKeys_bumpAssoc]
  by_cases hk : m.any (fun p => p.1 == k)
  · rw [if_pos hk]; exact h
  · rw [if_neg hk]
    refine List.nodup_append.mpr ⟨h, List.nodup_singleton k, ?_⟩
    intro a ha hak
    simp only [List.mem_singleton] at hak
    subst hak
    rcases List.mem_map.mp ha with ⟨p, hp, hpk⟩
    exact hk (List.any_eq_true.mpr ⟨p, hp, by simp [hpk]⟩)

theorem nonneg_bumpAssoc {m : List (String × Int)} {k : String} {v : Int}
    (h : ∀ e ∈ m, 0 ≤ e.2) (hv : 0 ≤ v) : ∀ e ∈ bumpAssoc m k v, 0 ≤ e.2 := by
  intro e he
  unfold bumpAssoc at he
  by_cases hk : m.any (fun p => p.1 == k)
  · rw [if_pos hk] at he
    rcases List.mem_map.mp he with ⟨p, hp, hpe⟩
    by_cases hpk : (p.1 == k) = true
    · rw [if_pos hpk] at hpe
      subst hpe
      have := h p hp
      simp only
      omega
    · rw [if_neg hpk] at hpe
      exact hpe ▸ h p hp
  · rw [if_neg hk] at he
    rcases List.mem_append.mp he with h' | h'
    · exact h e h'
    · simp only [List.mem_singleton] at h'
      subst h'
      exact hv

theorem sumVals_nil (k : String) : sumVals [] k = 0 := rfl

theorem sumVals_cons {j : String} {w : Int} {m : List (String × Int)} {k : String} :
    sumVals ((j, w) :: m) k = (if j == k then w else 0) + sumVals m k := by
  by_cases hj : j == k <;> simp [sumVals, List.filter, hj]

theorem option_map_sub_add (o : Option Int) (a : Int) :
    (o.map (fun x => x - a)).map (fun x => x + a) = o := by
  cases o <;> simp

/-! ## Lemmas about the inventory deduction and rollback loops -/

theorem stockOfL_updateFirst {l : List IngredientRow} {k j : String} {g : Int → Int} :
    stockOfL (updateFirst l (fun r => r.id == k) (fun r => { r with stockQty := g r.stockQty })) j =
      if j = k then (stockOfL l j).map g else stockOfL l j := by
  by_cases hjk : j = k
  · subst hjk
    rw [if_pos rfl]
    unfold stockOfL
    have key := find?_updateFirst_self (l := l) (p := fun r => r.id == j)
      (f := fun r => { r with stockQty := g r.stockQty }) (fun x => rfl)
    rw [key]
    cases l.find? (fun r => r.id == j) <;> rfl
  · rw [if_neg hjk]
    unfold stockOfL
    have key := find?_updateFirst_ne (l := l) (p := fun r => r.id == k)
      (q := fun r => r.id == j)
      (f := fun r => { r with stockQty := g r.stockQty })
      (fun x => rfl)
      (fun x hx => by
        simp only [beq_iff_eq] at hx ⊢
        rw [hx]
        simp [Ne.symm hjk])
    rw [key]

theorem ingProj_updateFirst_stock {l : List IngredientRow} {p : IngredientRow → Bool}
    {g : Int → Int} :
    ingProj (updateFirst l p (fun r => { r with stockQty := g r.stockQty })) = ingProj l :=
  map_updateFirst (by intro x; rfl)

theorem deductLoop_ok_spec {out oid : String} {lt : StockLogType} {td : Int}
    {db db' : DB} {d : List (String × Int)}
    (h : deductLoop out oid lt td db d = .ok db') :
    db'.orders = db.orders ∧ db'.orderItems = db.orderItems ∧
    db'.orderItemOptions = db.orderItemOptions ∧ db'.foodPrices = db.foodPrices ∧
    db'.foodOptions = db.foodOptions ∧ db'.orderTypes = db.orderTypes ∧
    db'.orderTypeDiscounts = db.orderTypeDiscounts ∧
    db'.foodIngredients = db.foodIngredients ∧ db'.billings = db.billings ∧
    db'.orderNumberCounters = db.orderNumberCounters ∧
    db'.receiptNumberCounters = db.receiptNumberCounters ∧ db'.recons = db.recons ∧
    db'.stockLogs = db.stockLogs ++ d.map (mkOutboundLog out oid lt td) ∧
    ingProj db'.ingredients = ingProj db.ingredients := by
  induction d generalizing db with
  | nil =>
    simp only [deductLoop] at h
    cases h
    simp
  | cons e rest ih =>
    simp only [deductLoop] at h
    cases hf : db.ingredients.find? (fun r => r.id == e.1) with
    | none => simp only [hf] at h; exact absurd h (by simp)
    | some ing =>
      simp only [hf] at h
      by_cases hs : ing.stockQty < e.2
      · rw [if_pos hs] at h; exact absurd h (by simp)
      · rw [if_neg hs] at h
        obtain ⟨h1, h2, h3, h4, h5, h6, h7, h8, h9, h10, h11, h12, h13, h14⟩ := ih h
        refine ⟨h1, h2, h3, h4, h5, h6, h7, h8, h9, h10, h11, h12, ?_, ?_⟩
        · rw [h13]; simp [List.append_assoc]
        · rw [h14]; exact ingProj_updateFirst_stock (g := fun x => x - e.2)

theorem deductLoop_stock {out oid : String} {lt : StockLogType} {td : Int}
    {db db' : DB} {d : List (String × Int)}
    (h : deductLoop out oid lt td db d = .ok db') :
    ∀ j, stockOf db' j = (stockOf db j).map (fun x => x - sumVals d j) := by
  induction d generalizing db with
  | nil =>
    simp only [deductLoop] at h
    cases h
    intro j
    cases hx : stockOf db' j <;> simp [sumVals_nil, hx]
  | cons e rest ih =>
    obtain ⟨k0, v0⟩ := e
    simp only [deductLoop] at h
    cases hf : db.ingredients.find? (fun r => r.id == k0) with
    | none => simp only [hf] at h; exact absurd h (by simp)
    | some ing =>
      simp only [hf] at h
      by_cases hs : ing.stockQty < v0
      · rw [if_pos hs] at h; exact absurd h (by simp)
      · rw [if_neg hs] at h
        intro j
        rw [ih h j]
        show (stockOfL _ j).map _ = (stockOfL db.ingredients j).map _
        rw [stockOfL_updateFirst (g := fun x => x - v0)]
        by_cases hjk : j = k0
        · rw [if_pos hjk, sumVals_cons, if_pos (by simp [hjk]), Option.map_map]
          cases hx : stockOfL db.ingredients j with
          | none => rfl
          | some s =>
            show some _ = some _
            rw [Option.some.injEq]
            show s - v0 - sumVals rest j = s - (v0 + sumVals rest j)
            omega
        · rw [if_neg hjk, sumVals_cons,
              if_neg (by simp only [beq_iff_eq]; intro hkj; exact hjk hkj.symm)]
          cases hx : stockOfL db.ingredients j with
          | none => rfl
          | some s =>
            show some _ = some _
            rw [Option.some.injEq]
            show s - sumVals rest j = s - (0 + sumVals rest j)
            omega

theorem deductLoop_nonneg {out oid : String} {lt : StockLogType} {td : Int}
    {db db' : DB} {d : List (String × Int)}
    (h : deductLoop out oid lt td db d = .ok db')
    (h0 : ∀ r ∈ db.ingredients, 0 ≤ r.stockQty) :
    ∀ r ∈ db'.ingredients, 0 ≤ r.stockQty := by
  induction d generalizing db with
  | nil =>
    simp only [deductLoop] at h
    cases h
    exact h0
  | cons e rest ih =>
    simp only [deductLoop] at h
    cases hf : db.ingredients.find? (fun r => r.id == e.1) with
    | none => simp only [hf] at h; exact absurd h (by simp)
    | some ing =>
      simp only [hf] at h
      by_cases hs : ing.stockQty < e.2
      · rw [if_pos hs] at h; exact absurd h (by simp)
      · rw [if_neg hs] at h
        refine ih h ?_
        intro r hr
        rcases mem_updateFirst hr with h' | ⟨y, hy, hxy⟩
        · exact h0 r h'
        · rw [hf] at hy
          cases hy
          subst hxy
          simp only
          omega

theorem deductLoop_insufficient {out oid : String} {lt : StockLogType} {td : Int}
    {db : DB} {d : List (String × Int)} {k : String} {v s : Int}
    (hnd : (assocKeys d).Nodup) (hmem : (k, v) ∈ d)
    (hstock : stockOf db k = some s) (hlt : s < v) :
    exceptOk (deductLoop out oid lt td db d) = false := by
  induction d generalizing db with
  | nil => cases hmem
  | cons e rest ih =>
    obtain ⟨k0, v0⟩ := e
    simp only [assocKeys, List.map_cons, List.nodup_cons] at hnd
    simp only [deductLoop]
    cases hf : db.ingredients.find? (fun r => r.id == k0) with
    | none => simp only [hf]; rfl
    | some ing =>
      simp only [hf]
      by_cases hs : ing.stockQty < v0
      · rw [if_pos hs]; rfl
      · rw [if_neg hs]
        rcases List.mem_cons.mp hmem with heq | hrest
        · exfalso
          have hk : k0 = k := congrArg Prod.fst heq.symm
          have hv : v0 = v := congrArg Prod.snd heq.symm
          have hsk : stockOf db k = some ing.stockQty := by
            unfold stockOf stockOfL
            rw [← hk, hf]
            rfl
          rw [hstock] at hsk
          cases hsk
          omega
        · have hkne : k0 ≠ k := by
            intro hek
            apply hnd.1
            rw [hek]
            exact List.mem_map.mpr ⟨(k, v), hrest, rfl⟩
          refine ih hnd.2 hrest ?_
          show stockOfL _ k = some s
          rw [stockOfL_updateFirst (g := fun x => x - v0),
              if_neg (fun hkk => hkne hkk.symm)]
          exact hstock

theorem nodup_addIngredients {acc : List (String × Int)} {q : Int}
    {l : List FoodIngredientRow} (h : (assocKeys acc).Nodup) :
    (assocKeys (addIngredients acc q l)).Nodup := by
  induction l generalizing acc with
  | nil => exact h
  | cons fi rest ih => exact ih (nodup_assocKeys_bumpAssoc h)

theorem nodup_accumulateItems {db : DB} {acc : List (String × Int)}
    {l : List OrderItemRow} (h : (assocKeys acc).Nodup) :
    (assocKeys (accumulateItems db acc l)).Nodup := by
  induction l generalizing acc with
  | nil => exact h
  | cons it rest ih => exact ih (nodup_addIngredients h)

theorem nodup_deductionsOf {db : DB} {oid : String} :
    (assocKeys (deductionsOf db oid)).Nodup :=
  nodup_accumulateItems List.nodup_nil

theorem nonneg_addIngredients {acc : List (String × Int)} {q : Int}
    {l : List FoodIngredientRow} (h : ∀ e ∈ acc, 0 ≤ e.2) (hq : 0 ≤ q)
    (hl : ∀ fi ∈ l, 0 ≤ fi.quantity) :
    ∀ e ∈ addIngredients acc q l, 0 ≤ e.2 := by
  induction l generalizing acc with
  | nil => exact h
  | cons fi rest ih =>
    refine ih (nonneg_bumpAssoc h ?_) (fun x hx => hl x (List.mem_cons_of_mem fi hx))
    exact mul_nonneg (hl fi (List.mem_cons_self fi rest)) hq

theorem nonneg_accumulateItems {db : DB} {acc : List (String × Int)}
    {l : List OrderItemRow} (h : ∀ e ∈ acc, 0 ≤ e.2)
    (hitems : ∀ it ∈ l, 0 ≤ it.quantity)
    (hfi : ∀ fi ∈ db.foodIngredients, 0 ≤ fi.quantity) :
    ∀ e ∈ accumulateItems db acc l, 0 ≤ e.2 := by
  induction l generalizing acc with
  | nil => exact h
  | cons it rest ih =>
    refine ih (nonneg_addIngredients h (hitems it (List.mem_cons_self it rest)) ?_)
      (fun x hx => hitems x (List.mem_cons_of_mem it hx))
    intro fi hfi'
    exact hfi fi (List.mem_of_mem_filter hfi')

theorem nonneg_deductionsOf {db : DB} {oid : String}
    (hitems : ∀ it ∈ db.orderItems, 0 ≤ it.quantity)
    (hfi : ∀ fi ∈ db.foodIngredients, 0 ≤ fi.quantity) :
    ∀ e ∈ deductionsOf db oid, 0 ≤ e.2 := by
  refine nonneg_accumulateItems (by intro e he; cases he) ?_ hfi
  intro it hit
  exact hitems it (List.mem_of_mem_filter hit)

theorem buildRollback_map {out oid : String} {lt : StockLogType} {td : Int}
    {acc d : List (String × Int)}
    (hnd : (assocKeys d).Nodup) (hnn : ∀ e ∈ d, 0 ≤ e.2)
    (hdisj : ∀ e ∈ d, acc.any (fun p => p.1 == e.1) = false) :
    buildRollback acc (d.map (mkOutboundLog out oid lt td)) = acc ++ d := by
  induction d generalizing acc with
  | nil => simp [buildRollback]
  | cons e rest ih =>
    obtain ⟨k, v⟩ := e
    simp only [assocKeys, List.map_cons, List.nodup_cons] at hnd
    have habs : |((mkOutboundLog out oid lt td (k, v)).quantity : Int)| = v :=
      abs_of_nonneg (hnn (k, v) (List.mem_cons_self _ _))
    simp only [List.map_cons, buildRollback]
    rw [show (mkOutboundLog out oid lt td (k, v)).ingredientId = k from rfl, habs]
    rw [bumpAssoc_of_not_mem (hdisj (k, v) (List.mem_cons_self _ _))]
    rw [ih ?hnd2 ?hnn2 ?hdisj2]
    · rw [List.append_assoc]; rfl
    case hnd2 => exact hnd.2
    case hnn2 => exact fun x hx => hnn x (List.mem_cons_of_mem _ hx)
    case hdisj2 =>
      intro x hx
      rw [List.any_append]
      have h1 : acc.any (fun p => p.1 == x.1) = false :=
        hdisj x (List.mem_cons_of_mem _ hx)
      have h2 : [(k, v)].any (fun p => p.1 == x.1) = false := by
        simp only [List.any_cons, List.any_nil, Bool.or_false]
        simp only [beq_eq_false_iff_ne, ne_eq]
        intro hkx
        exact hnd.1 (hkx ▸ List.mem_map.mpr ⟨x, hx, rfl⟩)
      rw [h1, h2]
      rfl

theorem rollbackLoop_ok_spec {out : String} {db db' : DB} {d : List (String × Int)}
    (hout : ∀ r ∈ db.ingredients, r.outletId = out)
    (h : rollbackLoop out db d = .ok db') :
    db'.orders = db.orders ∧ db'.orderItems = db.orderItems ∧
    db'.orderItemOptions = db.orderItemOptions ∧ db'.foodPrices = db.foodPrices ∧
    db'.foodOptions = db.foodOptions ∧ db'.orderTypes = db.orderTypes ∧
    db'.orderTypeDiscounts = db.orderTypeDiscounts ∧
    db'.foodIngredients = db.foodIngredients ∧ db'.billings = db.billings ∧
    db'.orderNumberCounters = db.orderNumberCounters ∧
    db'.receiptNumberCounters = db.receiptNumberCounters ∧ db'.recons = db.recons ∧
    db'.stockLogs = db.stockLogs ∧
    ingProj db'.ingredients = ingProj db.ingredients ∧
    ∀ j, stockOf db' j = (stockOf db j).map (fun x => x + sumVals d j) := by
  induction d generalizing db with
  | nil =>
    simp only [rollbackLoop] at h
    cases h
    refine ⟨rfl, rfl, rfl, rfl, rfl, rfl, rfl, rfl, rfl, rfl, rfl, rfl, rfl, rfl, ?_⟩
    intro j
    cases hx : stockOf db' j <;> simp [sumVals_nil, hx]
  | cons e rest ih =>
    obtain ⟨k0, v0⟩ := e
    simp only [rollbackLoop] at h
    have hpred : ∀ x ∈ db.ingredients,
        (x.id == k0 && x.outletId == out) = (x.id == k0) := by
      intro x hx
      rw [hout x hx]
      simp
    cases hf : db.ingredients.find? (fun r => r.id == k0 && r.outletId == out) with
    | none => simp only [hf] at h; exact absurd h (by simp)
    | some ing =>
      simp only [hf] at h
      have hupd : updateFirst db.ingredients (fun r => r.id == k0 && r.outletId == out)
            (fun r => { r with stockQty := r.stockQty + v0 }) =
          updateFirst db.ingredients (fun r => r.id == k0)
            (fun r => { r with stockQty := r.stockQty + v0 }) :=
        updateFirst_congr hpred
      rw [hupd] at h
      have hout2 : ∀ r ∈ (updateFirst db.ingredients (fun r => r.id == k0)
          (fun r => { r with stockQty := r.stockQty + v0 })), r.outletId = out := by
        intro r hr
        rcases mem_updateFirst hr with h' | ⟨y, hy, hxy⟩
        · exact hout r h'
        · subst hxy
          exact hout y (List.mem_of_find?_eq_some hy)
      obtain ⟨h1, h2, h3, h4, h5, h6, h7, h8, h9, h10, h11, h12, h13, h14, h15⟩ := ih hout2 h
      refine ⟨h1, h2, h3, h4, h5, h6, h7, h8, h9, h10, h11, h12, h13, ?_, ?_⟩
      · rw [h14]; exact ingProj_updateFirst_stock (g := fun x => x + v0)
      · intro j
        rw [h15 j]
        show (stockOfL _ j).map _ = (stockOfL db.ingredients j).map _
        rw [stockOfL_updateFirst (g := fun x => x + v0)]
        by_cases hjk : j = k0
        · rw [if_pos hjk, sumVals_cons, if_pos (by simp [hjk]), Option.map_map]
          cases hx : stockOfL db.ingredients j with
          | none => rfl
          | some s =>
            show some _ = some _
            rw [Option.some.injEq]
            show s + v0 + sumVals rest j = s + (v0 + sumVals rest j)
            omega
        · rw [if_neg hjk, sumVals_cons,
              if_neg (by simp only [beq_iff_eq]; intro hkj; exact hjk hkj.symm)]
          cases hx : stockOfL db.ingredients j with
          | none => rfl
          | some s =>
            show some _ = some _
            rw [Option.some.injEq]
            show s + sumVals rest j = s + (0 + sumVals rest j)
            omega

theorem outlet_of_ingProj_eq {l1 l0 : List IngredientRow} {out : String}
    (hproj : ingProj l1 = ingProj l0) (hout : ∀ r ∈ l0, r.outletId = out) :
    ∀ r ∈ l1, r.outletId = out := by
  intro r hr
  have hmem : (r.id, r.outletId, r.name) ∈ ingProj l1 :=
    List.mem_map.mpr ⟨r, hr, rfl⟩
  rw [hproj] at hmem
  rcases List.mem_map.mp hmem with ⟨r0, hr0, heq⟩
  have : r.outletId = r0.outletId := (congrArg (fun p => p.2.1) heq).symm
  rw [this]
  exact hout r0 hr0

theorem deduct_ok_spec {db db1 : DB} {oid out : String}
    (h : deductIngredientsForPaidOrder db oid out = .ok db1) :
    ∃ order lt, orderOf db oid = some order ∧ order.status = OrderStatus.PAID ∧
      order.outletId = out ∧
      deductLoop out oid lt order.createdAt db (deductionsOf db oid) = .ok db1 := by
  unfold deductIngredientsForPaidOrder at h
  cases ho : orderOf db oid with
  | none => simp only [ho] at h; exact absurd h (by simp)
  | some order =>
    simp only [ho] at h
    by_cases hst : order.status ≠ OrderStatus.PAID
    · rw [if_pos hst] at h; cases h
    · rw [if_neg hst] at h
      by_cases hou : order.outletId ≠ out
      · rw [if_pos hou] at h; cases h
      · rw [if_neg hou] at h
        cases hot : orderTypeOf db order.orderTypeId with
        | none => simp only [hot] at h; exact absurd h (by simp)
        | some orderType =>
          simp only [hot] at h
          push_neg at hst hou
          exact ⟨order, _, rfl, hst, hou, h⟩

theorem dailyTransaction_nonneg {db db' : DB} {ingId : String} {q : Int}
    {ty : StockLogType} {dateMs : Int} {out : String}
    (h : dailyTransaction db ingId q ty dateMs out = .ok db')
    (h0 : ∀ r ∈ db.ingredients, 0 ≤ r.stockQty) :
    ∀ r ∈ db'.ingredients, 0 ≤ r.stockQty := by
  unfold dailyTransaction at h
  by_cases hq : q ≤ 0
  · rw [if_pos hq] at h; cases h
  · rw [if_neg hq] at h
    by_cases hty : ty ∉ allAllowedTransactionTypes
    · rw [if_pos hty] at h; cases h
    · rw [if_neg hty] at h
      cases hc : db.stockLogs.find? (fun l =>
          l.ingredientId == ingId && l.outletId == out &&
          decide (l.type = ty) && decide (utcFloorDay dateMs ≤ l.transactionDate) &&
          decide (l.transactionDate < utcFloorDay dateMs + 86400000)) with
      | some lg => simp only [hc] at h; exact absurd h (by simp)
      | none =>
        simp only [hc] at h
        cases hf : db.ingredients.find? (fun r => r.id == ingId) with
        | none => simp only [hf] at h; exact absurd h (by simp)
        | some ing =>
          simp only [hf] at h
          by_cases hguard : ing.stockQty +
              (if ty ∈ allowedDeductionTypes then -q else q) < 0 ∧
              ty ∈ allowedDeductionTypes
          · rw [if_pos hguard] at h; cases h
          · rw [if_neg hguard] at h
            cases h
            intro r hr
            rcases mem_updateFirst hr with h' | ⟨y, hy, hxy⟩
            · exact h0 r h'
            · rw [hf] at hy
              cases hy
              subst hxy
              show 0 ≤ ing.stockQty + (if ty ∈ allowedDeductionTypes then -q else q)
              by_cases hd : ty ∈ allowedDeductionTypes
              · have hng : ¬ (ing.stockQty +
                    (if ty ∈ allowedDeductionTypes then -q else q) < 0) :=
                  fun hneg => hguard ⟨hneg, hd⟩
                omega
              · have h0i := h0 ing (List.mem_of_find?_eq_some hf)
                rw [if_neg hd]
                omega

theorem dailyTransaction_insufficient {db : DB} {ingId : String} {q s : Int}
    {ty : StockLogType} {dateMs : Int} {out : String}
    (hstock : stockOf db ingId = some s) (hty : ty ∈ allowedDeductionTypes)
    (hlt : s < q) :
    exceptOk (dailyTransaction db ingId q ty dateMs out) = false := by
  unfold dailyTransaction
  by_cases hq : q ≤ 0
  · rw [if_pos hq]; rfl
  · rw [if_neg hq]
    have hall : ty ∈ allAllowedTransactionTypes := List.mem_cons_of_mem _ hty
    rw [if_neg (by simpa using hall)]
    cases hc : db.stockLogs.find? (fun l =>
        l.ingredientId == ingId && l.outletId == out &&
        decide (l.type = ty) && decide (utcFloorDay dateMs ≤ l.transactionDate) &&
        decide (l.transactionDate < utcFloorDay dateMs + 86400000)) with
    | some lg => simp only [hc]; rfl
    | none =>
      simp only [hc]
      cases hf : db.ingredients.find? (fun r => r.id == ingId) with
      | none => simp only [hf]; rfl
      | some ing =>
        simp only [hf]
        have his : ing.stockQty = s := by
          unfold stockOf stockOfL at hstock
          rw [hf] at hstock
          cases hstock
          rfl
        rw [if_pos ⟨by rw [if_pos hty]; omega, hty⟩]
        rfl

theorem deduct_insufficient {db : DB} {oid out k : String} {v s : Int}
    (hmem : (k, v) ∈ deductionsOf db oid) (hst : stockOf db k = some s) (hlt : s < v) :
    exceptOk (deductIngredientsForPaidOrder db oid out) = false := by
  unfold deductIngredientsForPaidOrder
  cases ho : orderOf db oid with
  | none => simp only [ho]; rfl
  | some order =>
    simp only [ho]
    by_cases hstat : order.status ≠ OrderStatus.PAID
    · rw [if_pos hstat]; rfl
    · rw [if_neg hstat]
      by_cases houl : order.outletId ≠ out
      · rw [if_pos houl]; rfl
      · rw [if_neg houl]
        cases hot : orderTypeOf db order.orderTypeId with
        | none => simp only [hot]; rfl
        | some orderType =>
          simp only [hot]
          exact deductLoop_insufficient nodup_deductionsOf hmem hst hlt

/-! ## Claim theorems -/

/-- C2.  Stock non-negativity invariant: (a) the billing-time deduction
and (b) a manual daily stock transaction preserve `stockQty ≥ 0` for
every ingredient of any committed (successfully returned) state; (c) a
billing-time deduction whose accumulated per-ingredient requirement
exceeds the current stock throws and the transaction aborts, and (d) a
deduction-type daily stock transaction that would drive the stock below
zero throws and aborts — so a negative stock value is never committed. -/
theorem stock_nonnegativity_invariant
    (dbA dbA' : DB) (oidA outA : String)
    (hA0 : ∀ r ∈ dbA.ingredients, 0 ≤ r.stockQty)
    (hA : deductIngredientsForPaidOrder dbA oidA outA = .ok dbA')
    (dbB dbB' : DB) (ingB outB : String) (qB : Int) (tyB : StockLogType) (dateB : Int)
    (hB0 : ∀ r ∈ dbB.ingredients, 0 ≤ r.stockQty)
    (hB : dailyTransaction dbB ingB qB tyB dateB outB = .ok dbB')
    (dbC : DB) (oidC outC kC : String) (vC sC : Int)
    (hC1 : (kC, vC) ∈ deductionsOf dbC oidC)
    (hC2 : stockOf dbC kC = some sC) (hC3 : sC < vC)
    (dbD : DB) (ingD outD : String) (qD sD : Int) (tyD : StockLogType) (dateD : Int)
    (hD1 : stockOf dbD ingD = some sD) (hD2 : tyD ∈ allowedDeductionTypes)
    (hD3 : sD < qD) :
    (∀ r ∈ dbA'.ingredients, 0 ≤ r.stockQty) ∧
    (∀ r ∈ dbB'.ingredients, 0 ≤ r.stockQty) ∧
    exceptOk (deductIngredientsForPaidOrder dbC oidC outC) = false ∧
    exceptOk (dailyTransaction dbD ingD qD tyD dateD outD) = false := by
  refine ⟨?_, ?_, ?_, ?_⟩
  · obtain ⟨order, lt, ho, hst, hou, hloop⟩ := deduct_ok_spec hA
    exact deductLoop_nonneg hloop hA0
  · exact dailyTransaction_nonneg hB hB0
  · exact deduct_insufficient hC1 hC2 hC3
  · exact dailyTransaction_insufficient hD1 hD2 hD3

/-- Witness for C2 at concrete states: a successful deduction (5 − 4 = 1)
and a successful INBOUND transaction (5 + 3 = 8) leave non-negative
stock, while a deduction of 4 against stock 3 and a DISCREPANCY of 9
against stock 5 are rejected. -/
theorem stock_nonnegativity_invariant_witness :
    0 ≤ (⟨"g1", "u1", "chicken", 1⟩ : IngredientRow).stockQty ∧
    0 ≤ (⟨"g1", "u1", "chicken", 8⟩ : IngredientRow).stockQty ∧
    exceptOk (deductIngredientsForPaidOrder c2ShortDb "o1" "u1") = false ∧
    exceptOk (dailyTransaction c2DailyDb "g1" 9 .DISCREPANCY 0 "u1") = false := by
  have h := stock_nonnegativity_invariant
    c2DeductDb (okOr DB.empty (deductIngredientsForPaidOrder c2DeductDb "o1" "u1"))
    "o1" "u1" (by decide) rfl
    c2DailyDb (okOr DB.empty (dailyTransaction c2DailyDb "g1" 3 .INBOUND 0 "u1"))
    "g1" "u1" 3 .INBOUND 0 (by decide) rfl
    c2ShortDb "o1" "u1" "g1" 4 3 (by decide) (by decide) (by decide)
    c2DailyDb "g1" "u1" 9 5 .DISCREPANCY 0 (by decide) (by decide) (by decide)
  exact ⟨h.1 _ (by decide), h.2.1 _ (by decide), h.2.2.1, h.2.2.2⟩

/-- C6.  Voiding an already-VOID billing is an idempotent no-op: the call
succeeds with the "already cancelled" response and the returned state is
the input state itself — no ingredient, order, billing or stock-log row
changes; a second identical call therefore returns the same response. -/
theorem void_already_void_idempotent (db : DB) (out rc onum : String) (b : BillingRow)
    (hfind : billingOf db out rc onum = some b)
    (hvoid : b.status = PaymentStatus.VOID) :
    cancelBillingTransaction db out rc onum = .ok (db, .alreadyCancelled b.orderId) := by
  unfold cancelBillingTransaction
  simp only [hfind]
  rw [if_pos hvoid]

/-- Witness for C6 at a concrete already-VOID billing. -/
theorem void_already_void_idempotent_witness :
    cancelBillingTransaction c6Db "u1" "00001" "00001" =
      .ok (c6Db, .alreadyCancelled "o1") :=
  void_already_void_idempotent c6Db "u1" "00001" "00001"
    ⟨"o1", "00001", "u1", 20000, 0, 0, 20000, 20000, 0, .CASH, .VOID, "00001", 50⟩
    (by decide) (by decide)

/-- C5.  Deduct-then-void round trip: if billing an order deducted stock
(the order's stock logs being exactly those the deduction wrote) and the
void handler subsequently succeeds, every ingredient's stock quantity is
restored to exactly its pre-deduction value. -/
theorem deduct_then_void_restores_stock
    (db db1 db2 : DB) (orderId outletId rc onum : String)
    (b : BillingRow) (r2 : CancelResult)
    (hitems : ∀ it ∈ db.orderItems, 0 ≤ it.quantity)
    (hfi : ∀ fi ∈ db.foodIngredients, 0 ≤ fi.quantity)
    (hout : ∀ r ∈ db.ingredients, r.outletId = outletId)
    (hnolog : ∀ l ∈ db.stockLogs,
      (l.outletId == outletId && l.orderId == some orderId) = false)
    (hded : deductIngredientsForPaidOrder db orderId outletId = .ok db1)
    (hbill : billingOf db1 outletId rc onum = some b)
    (hbid : b.orderId = orderId)
    (hbst : ¬ b.status = PaymentStatus.VOID)
    (hcancel : cancelBillingTransaction db1 outletId rc onum = .ok (db2, r2)) :
    ∀ k, stockOf db2 k = stockOf db k := by
  obtain ⟨order, lt, ho, hst, hou, hloop⟩ := deduct_ok_spec hded
  have hnd : (assocKeys (deductionsOf db orderId)).Nodup := nodup_deductionsOf
  have hnn := @nonneg_deductionsOf db orderId hitems hfi
  obtain ⟨g1, g2, g3, g4, g5, g6, g7, g8, g9, g10, g11, g12, glogs, gproj⟩ :=
    deductLoop_ok_spec hloop
  have hstock1 := deductLoop_stock hloop
  have hout1 : ∀ r ∈ db1.ingredients, r.outletId = outletId :=
    outlet_of_ingProj_eq gproj hout
  unfold cancelBillingTransaction at hcancel
  simp only [hbill] at hcancel
  rw [if_neg hbst] at hcancel
  rw [hbid] at hcancel
  have hfilt : db1.stockLogs.filter
      (fun l => l.outletId == outletId && l.orderId == some orderId) =
      (deductionsOf db orderId).map (mkOutboundLog outletId orderId lt order.createdAt) := by
    rw [glogs, List.filter_append]
    have hold : db.stockLogs.filter
        (fun l => l.outletId == outletId && l.orderId == some orderId) = [] := by
      rw [List.filter_eq_nil_iff]
      intro l hl
      simp [hnolog l hl]
    have hnew : ((deductionsOf db orderId).map
        (mkOutboundLog outletId orderId lt order.createdAt)).filter
        (fun l => l.outletId == outletId && l.orderId == some orderId) =
        (deductionsOf db orderId).map (mkOutboundLog outletId orderId lt order.createdAt) := by
      rw [List.filter_eq_self]
      intro l hl
      rcases List.mem_map.mp hl with ⟨e, he, hle⟩
      subst hle
      simp [mkOutboundLog]
    rw [hold, hnew, List.nil_append]
  rw [hfilt] at hcancel
  have hrb : buildRollback []
      ((deductionsOf db orderId).map (mkOutboundLog outletId orderId lt order.createdAt)) =
      deductionsOf db orderId := by
    have := @buildRollback_map outletId orderId lt order.createdAt []
      (deductionsOf db orderId) hnd hnn (fun e _ => rfl)
    simpa using this
  rw [hrb] at hcancel
  cases hrl : rollbackLoop outletId db1 (deductionsOf db orderId) with
  | error e => simp only [hrl] at hcancel; exact absurd hcancel (by simp)
  | ok db2' =>
    simp only [hrl] at hcancel
    obtain ⟨k1, k2, k3, k4, k5, k6, k7, k8, k9, k10, k11, k12, k13, kproj, kstock⟩ :=
      rollbackLoop_ok_spec hout1 hrl
    split at hcancel
    · exact absurd hcancel (by simp)
    · split at hcancel
      · exact absurd hcancel (by simp)
      · have hpair := Except.ok.inj hcancel
        have hdb2 : _ = db2 := congrArg Prod.fst hpair
        intro k
        rw [← hdb2]
        show stockOfL db2'.ingredients k = stockOf db k
        have hs2 : stockOfL db2'.ingredients k = stockOf db2' k := rfl
        rw [hs2, kstock k, hstock1 k, option_map_sub_add]

/-- Witness for C5 at a concrete state: deducting 4 units of `g1`
(5 → 1) and then voiding the billing restores the stock to 5. -/
theorem deduct_then_void_restores_stock_witness :
    stockOf c5Db2 "g1" = stockOf c5Db "g1" :=
  deduct_then_void_restores_stock c5Db c5Db1 c5Db2 "o1" "u1" "00001" "00001"
    ⟨"o1", "00001", "u1", 20000, 0, 0, 20000, 20000, 0, .CASH, .PAID, "00001", 50⟩
    c5Res
    (by decide) (by decide) (by decide) (by decide) rfl rfl rfl (by decide) rfl "g1"

/-! ## Discount and billing lemmas -/

theorem rawDiscountFor_isOk {db : DB} {order : OrderRow} {name : String} {m : Int}
    (h1 : order.outletId ≠ "") (h2 : order.orderTypeId ≠ "") :
    exceptOk (rawDiscountFor db order name m) = true := by
  unfold rawDiscountFor
  by_cases hn : (name == "Dine In" || name == "Take Away") = true
  · rw [if_pos hn]; rfl
  · rw [if_neg hn]
    rw [if_neg (by simp [h1, h2])]
    cases hotd : db.orderTypeDiscounts.find? (fun dd =>
        dd.orderTypeId == order.orderTypeId && dd.outletId == order.outletId) with
    | none => simp only [hotd]; rfl
    | some otd =>
      simp only [hotd]
      by_cases hact : otd.isActive ∧ otd.percentage > 0
      · rw [if_pos hact]; rfl
      · rw [if_neg hact]; rfl

theorem max0_rawDiscountFor {db : DB} {order : OrderRow} {name : String} {m r : Int}
    (h : rawDiscountFor db order name m = .ok r) :
    max 0 r = discountPolicy db order name m := by
  unfold rawDiscountFor at h
  unfold discountPolicy
  by_cases hn : (name == "Dine In" || name == "Take Away") = true
  · rw [if_pos hn] at h
    cases h
    rw [if_pos (by simpa using hn)]
  · rw [if_neg hn] at h
    rw [if_neg (by simpa using hn)]
    by_cases he : (order.outletId == "" || order.orderTypeId == "") = true
    · rw [if_pos he] at h; cases h
    · rw [if_neg he] at h
      cases hotd : db.orderTypeDiscounts.find? (fun dd =>
          dd.orderTypeId == order.orderTypeId && dd.outletId == order.outletId) with
      | none => simp only [hotd] at h ⊢; cases h; rfl
      | some otd =>
        simp only [hotd] at h ⊢
        by_cases hact : otd.isActive ∧ otd.percentage > 0
        · rw [if_pos hact] at h ⊢; cases h; rfl
        · rw [if_neg hact] at h ⊢; cases h; rfl

/-- C3.  Billing postcondition: whenever `createBillingTx` succeeds, the
created billing's discount equals the specification's strict branch
policy (manual amount for "Dine In"/"Take Away", else the active
percentage rule with manual fallback, clamped to be non-negative), its
total is `order.total - discount`, and its change is
`amountPaid - total`. -/
theorem billing_discount_total_change
    (db db' : DB) (oid : String) (pt : PaymentType) (ap : Int)
    (discountReq : Option Int) (now : Int) (order : OrderRow) (ot : OrderTypeRow)
    (bill : BillingRow)
    (hord : orderOf db oid = some order)
    (hot : orderTypeOf db order.orderTypeId = some ot)
    (h : createBillingTx db oid pt ap discountReq now = .ok (db', bill)) :
    bill.discount = discountPolicy db order ot.name (discountReq.getD 0) ∧
    bill.total = order.total - bill.discount ∧
    bill.changeGiven = ap - bill.total := by
  unfold createBillingTx at h
  simp only [hord] at h
  by_cases hstat : order.status ≠ OrderStatus.SERVED ∧ order.status ≠ OrderStatus.PAID
  · rw [if_pos hstat] at h; exact absurd h (by simp)
  · rw [if_neg hstat] at h
    simp only [hot] at h
    cases hraw : rawDiscountFor db order ot.name (discountReq.getD 0) with
    | error e => simp only [hraw] at h; exact absurd h (by simp)
    | ok raw =>
      simp only [hraw] at h
      by_cases hch : ap - (order.total - max 0 raw) < 0
      · rw [if_pos hch] at h; exact absurd h (by simp)
      · rw [if_neg hch] at h
        rcases hup : upsertReceiptCounter db order.outletId with ⟨db2, cur⟩
        rw [hup] at h
        cases hd : deductIngredientsForPaidOrder
            { db2 with
                billings := db2.billings ++
                  [⟨order.id, order.orderNumber, order.outletId, order.subtotal, 0,
                    max 0 raw, order.total - max 0 raw, ap, ap - (order.total - max 0 raw),
                    pt, PaymentStatus.PAID, pad5 cur, now⟩],
                orders := updateFirst db2.orders (fun o => o.id == order.id)
                  (fun o => { o with status := OrderStatus.PAID }) }
            order.id order.outletId with
        | error e => rw [hd] at h; exact absurd h (by simp)
        | ok db5 =>
          rw [hd] at h
          have hpair := Except.ok.inj h
          have hbill : bill = ⟨order.id, order.orderNumber, order.outletId, order.subtotal, 0,
              max 0 raw, order.total - max 0 raw, ap, ap - (order.total - max 0 raw),
              pt, PaymentStatus.PAID, pad5 cur, now⟩ :=
            (congrArg Prod.snd hpair).symm
          subst hbill
          refine ⟨max0_rawDiscountFor hraw, ?_, ?_⟩
          · show order.total - max 0 raw = order.total - max 0 raw
            rfl
          · show ap - (order.total - max 0 raw) = ap - (order.total - max 0 raw)
            rfl

/-- Witness for C3 at the specification's scenario: total 22000 billed as
"Dine In" with `amountPaid = 25000` and manual discount 2000 yields a
billing with discount 2000, total 20000 and change 5000. -/
theorem billing_discount_total_change_witness :
    c3Bill.discount = 2000 ∧ c3Bill.total = 20000 ∧ c3Bill.changeGiven = 5000 := by
  obtain ⟨h1, h2, h3⟩ := billing_discount_total_change c3Db
    (okOr (DB.empty, (⟨"", "", "", 0, 0, 0, 0, 0, 0, .CASH, .PAID, "", 0⟩ : BillingRow))
      (createBillingTx c3Db "o1" .CASH 25000 (some 2000) 77)).1
    "o1" .CASH 25000 (some 2000) 77
    ⟨"o1", "00001", .SERVED, 22000, 22000, "t1", "u1", 0⟩ ⟨"t1", "Dine In"⟩
    c3Bill rfl rfl rfl
  refine ⟨?_, ?_, ?_⟩
  · rw [h1]; decide
  · rw [h2, h1]; decide
  · rw [h3, h2, h1]; decide

/-- C4.  Billing failure semantics: the billing endpoint fails with
"Order not found" when the order is absent, with "Order is not ready for
billing" when its status is neither SERVED nor PAID, and with
"Insufficient payment" when `amountPaid` is below the discounted total;
and on every error the returned state is the input state — the
transaction rolls back, so no billing row, receipt-counter increment,
stock deduction or status change persists. -/
theorem billing_error_cases (db : DB) (oid : String) (pt : PaymentType) (ap : Int)
    (discountReq : Option Int) (now : Int) :
    (orderOf db oid = none →
      createBilling db oid pt ap discountReq now = (db, .error "Order not found")) ∧
    (∀ order, orderOf db oid = some order →
      order.status ≠ OrderStatus.SERVED → order.status ≠ OrderStatus.PAID →
      createBilling db oid pt ap discountReq now =
        (db, .error "Order is not ready for billing")) ∧
    (∀ order ot, orderOf db oid = some order →
      orderTypeOf db order.orderTypeId = some ot →
      (order.status = OrderStatus.SERVED ∨ order.status = OrderStatus.PAID) →
      order.outletId ≠ "" → order.orderTypeId ≠ "" →
      ap < order.total - discountPolicy db order ot.name (discountReq.getD 0) →
      createBilling db oid pt ap discountReq now = (db, .error "Insufficient payment")) ∧
    (∀ e, (createBilling db oid pt ap discountReq now).2 = .error e →
      (createBilling db oid pt ap discountReq now).1 = db) := by
  refine ⟨?_, ?_, ?_, ?_⟩
  · intro h
    unfold createBilling createBillingTx
    simp only [h]
  · intro order h h1 h2
    unfold createBilling createBillingTx
    simp only [h]
    rw [if_pos ⟨h1, h2⟩]
  · intro order ot h hot hstat hne1 hne2 hlt
    unfold createBilling createBillingTx
    simp only [h]
    rw [if_neg (by rw [not_and_or]; push_neg; rcases hstat with hs | hs <;> simp [hs])]
    simp only [hot]
    obtain ⟨raw, hraw⟩ : ∃ r,
        rawDiscountFor db order ot.name (discountReq.getD 0) = Except.ok r := by
      cases hx : rawDiscountFor db order ot.name (discountReq.getD 0) with
      | error e =>
        have := @rawDiscountFor_isOk db order ot.name (discountReq.getD 0) hne1 hne2
        rw [hx] at this
        cases this
      | ok r => exact ⟨r, rfl⟩
    have hmax := max0_rawDiscountFor hraw
    simp only [hraw]
    rw [if_pos (by rw [hmax]; omega)]
  · intro e he
    unfold createBilling at he ⊢
    cases hres : createBillingTx db oid pt ap discountReq now with
    | ok p => rw [hres] at he; cases hp : p; rw [hp] at he; cases he
    | error e2 => rfl

/-- Witness for C4 at concrete states: an absent order, a PENDING order,
and a payment of 15000 against a discounted total of 20000 all fail with
the right error and leave the state untouched. -/
theorem billing_error_cases_witness :
    createBilling DB.empty "o1" .CASH 25000 none 0 =
      (DB.empty, .error "Order not found") ∧
    createBilling c4BadDb "o1" .CASH 25000 none 0 =
      (c4BadDb, .error "Order is not ready for billing") ∧
    createBilling c4Db "o1" .CASH 15000 (some 2000) 0 =
      (c4Db, .error "Insufficient payment") ∧
    (createBilling c4Db "o1" .CASH 15000 (some 2000) 0).1 = c4Db := by
  refine ⟨?_, ?_, ?_, ?_⟩
  · exact (billing_error_cases DB.empty "o1" .CASH 25000 none 0).1 (by decide)
  · exact (billing_error_cases c4BadDb "o1" .CASH 25000 none 0).2.1
      ⟨"o1", "00001", .PENDING, 22000, 22000, "t1", "u1", 0⟩ (by decide) (by decide) (by decide)
  · exact (billing_error_cases c4Db "o1" .CASH 15000 (some 2000) 0).2.2.1
      ⟨"o1", "00001", .SERVED, 22000, 22000, "t1", "u1", 0⟩ ⟨"t1", "Dine In"⟩
      (by decide) (by decide) (by decide) (by decide) (by decide) (by decide)
  · exact (billing_error_cases c4Db "o1" .CASH 15000 (some 2000) 0).2.2.2
      "Insufficient payment" (by decide)

/-! ## Date-key and reconciliation theorems -/

/-- C8 counterexample.  The two date-key normalizations are not the same
function: on a host running at UTC+7 (offset 420 minutes), the unlock
path's `setHours(0,0,0,0)` floors `2025-05-01T00:00:00Z` to host-local
midnight, seven hours before the UTC-midnight key the submit path
computes for the same `"2025-05-01"` string. -/
theorem date_key_counterexample : unlockDateKey 2025 5 1 420 ≠ submitDateKey 2025 5 1 := by
  decide

/-- C8 amended.  When the host runs at UTC (offset zero) the two
computations agree on every `YYYY-MM-DD` date: flooring a UTC-midnight
instant to local midnight is the identity exactly when local time is UTC. -/
theorem date_key_agreement_on_utc_host (y m d : Int) :
    unlockDateKey y m d 0 = submitDateKey y m d := by
  simp only [unlockDateKey, setHoursZero, submitDateKey]
  omega

theorem find?_append_none {α : Type} {l l₂ : List α} {p : α → Bool}
    (h : l.find? p = none) : (l ++ l₂).find? p = l₂.find? p := by
  induction l with
  | nil => rfl
  | cons a t ih =>
    cases hpa : p a with
    | true => simp [List.find?, hpa] at h
    | false =>
      simp only [List.find?, hpa] at h
      simp only [List.cons_append, List.find?, hpa]
      exact ih h

theorem cash_revenue_code_eq_spec (db : DB) (out : String) (key : Int) :
    ((db.billings.filter (countsAsCashRevenue db out key)).map (fun b => b.total)).sum =
      dailyCashRevenueSpec db out key := by
  unfold dailyCashRevenueSpec
  have hfil : db.billings.filter (countsAsCashRevenue db out key) =
      db.billings.filter (fun b =>
        b.outletId == out &&
        decide (key ≤ b.paidAt) &&
        decide (b.paidAt < key + 86400000) &&
        decide (b.paymentType = PaymentType.CASH) &&
        decide (b.status ≠ PaymentStatus.VOID) &&
        (match orderOf db b.orderId with
         | none => false
         | some o =>
           match orderTypeOf db o.orderTypeId with
           | none => false
           | some t => t.name != "Boss" && t.name != "Staff")) := by
    apply List.filter_congr
    intro b _
    unfold countsAsCashRevenue
    have hd : decide (b.paidAt ≤ key + 24 * 60 * 60 * 1000 - 1) =
        decide (b.paidAt < key + 86400000) := by
      rw [decide_eq_decide]
      omega
    rw [hd]
  rw [hfil]

/-- C7.  Cash-reconciliation submit postcondition: after a submission for
`(outlet, date)`, the stored row has
`remainingBalance = previousDayBalance + dailyCashRevenue + adjustment -
cashDeposit` — where `previousDayBalance` is the prior day's stored
remaining balance (0 when absent) and `dailyCashRevenue` sums exactly the
day's CASH-type, non-VOID billings of the outlet whose order-type name is
neither "Boss" nor "Staff" — and `isLocked` is set to `true`. -/
theorem cash_reconciliation_submit_postcondition (db : DB) (outletId : String)
    (y m d : Int) (cashDeposit : Int) (cashierName : String)
    (adjustment : Option Int) (isAdmin : Bool) :
    (reconOf (submitDailyCashReconciliation db outletId y m d cashDeposit
        cashierName adjustment isAdmin) outletId (submitDateKey y m d)).map
      (fun r => (r.remainingBalance, r.isLocked)) =
    some (previousDayBalanceSpec db outletId (submitDateKey y m d) +
          dailyCashRevenueSpec db outletId (submitDateKey y m d) +
          adjustment.getD 0 - cashDeposit, true) := by
  unfold submitDailyCashReconciliation
  cases hex : reconOf db outletId (submitDateKey y m d) with
  | some existing =>
    simp only [hex]
    unfold reconOf
    rw [find?_updateFirst_self (l := db.recons)
      (p := fun r => r.outletId == outletId && r.date == submitDateKey y m d)
      (f := submitReconUpdate
        (match List.find? (fun r => r.outletId == outletId &&
            r.date == submitDateKey y m d - 86400000) db.recons with
         | some r => r.remainingBalance
         | none => 0)
        ((List.map (fun b => b.total)
          (List.filter (countsAsCashRevenue db outletId (submitDateKey y m d))
            db.billings)).sum)
        (adjustment.getD 0) cashDeposit cashierName isAdmin)
      (fun x => rfl)]
    unfold reconOf at hex
    rw [hex]
    show some (_, _) = _
    rw [Option.some.injEq, Prod.mk.injEq]
    refine ⟨?_, rfl⟩
    show (match List.find? (fun r => r.outletId == outletId &&
            r.date == submitDateKey y m d - 86400000) db.recons with
          | some r => r.remainingBalance
          | none => 0) +
         ((db.billings.filter (countsAsCashRevenue db outletId
           (submitDateKey y m d))).map (fun b => b.total)).sum +
         adjustment.getD 0 - cashDeposit = _
    rw [cash_revenue_code_eq_spec]
    rfl
  | none =>
    simp only [hex]
    unfold reconOf
    unfold reconOf at hex
    rw [find?_append_none hex]
    rw [List.find?_cons_of_pos _ (by simp)]
    show some (_, _) = _
    rw [Option.some.injEq, Prod.mk.injEq]
    refine ⟨?_, rfl⟩
    show (match List.find? (fun r => r.outletId == outletId &&
            r.date == submitDateKey y m d - 86400000) db.recons with
          | some r => r.remainingBalance
          | none => 0) +
         ((db.billings.filter (countsAsCashRevenue db outletId
           (submitDateKey y m d))).map (fun b => b.total)).sum +
         adjustment.getD 0 - cashDeposit = _
    rw [cash_revenue_code_eq_spec]
    rfl

/-! ## Sum lemmas for the totals invariant -/

theorem activeItemSumL_append (l1 l2 : List OrderItemRow) (x : String) :
    activeItemSumL (l1 ++ l2) x = activeItemSumL l1 x + activeItemSumL l2 x := by
  unfold activeItemSumL
  rw [List.filter_append, List.map_append, List.sum_append]

theorem activeItemSumL_zero {l : List OrderItemRow} {x : String}
    (h : ∀ it ∈ l, (it.orderId == x) = false) : activeItemSumL l x = 0 := by
  induction l with
  | nil => rfl
  | cons a t ih =>
    have ha := h a (List.mem_cons_self a t)
    have ht := ih (fun it hit => h it (List.mem_cons_of_mem a hit))
    unfold activeItemSumL at ht ⊢
    rw [List.filter_cons]
    simp only [ha, Bool.false_and, Bool.false_eq_true, if_false]
    exact ht

theorem activeItemSumL_all {l : List OrderItemRow} {x : String}
    (h : ∀ it ∈ l, it.orderId = x ∧ it.status = OrderItemStatus.ACTIVE) :
    activeItemSumL l x = (l.map (fun it => it.totalPrice)).sum := by
  induction l with
  | nil => rfl
  | cons a t ih =>
    obtain ⟨h1, h2⟩ := h a (List.mem_cons_self a t)
    have ht := ih (fun it hit => h it (List.mem_cons_of_mem a hit))
    unfold activeItemSumL at ht ⊢
    rw [List.filter_cons]
    simp only [h1, h2, beq_self_eq_true, Bool.true_and, decide_True, if_true, List.map_cons,
      List.sum_cons, ht]

theorem optionTotalSumL_append (l1 l2 : List OrderItemOptionRow) (x : String) :
    optionTotalSumL (l1 ++ l2) x = optionTotalSumL l1 x + optionTotalSumL l2 x := by
  unfold optionTotalSumL
  rw [List.filter_append, List.map_append, List.sum_append]

theorem optionTotalSumL_zero {l : List OrderItemOptionRow} {x : String}
    (h : ∀ r ∈ l, (r.orderItemId == x) = false) : optionTotalSumL l x = 0 := by
  induction l with
  | nil => rfl
  | cons a t ih =>
    have ha := h a (List.mem_cons_self a t)
    have ht := ih (fun r hr => h r (List.mem_cons_of_mem a hr))
    unfold optionTotalSumL at ht ⊢
    rw [List.filter_cons]
    simp only [ha, Bool.false_and, Bool.false_eq_true, if_false]
    exact ht

theorem optionTotalSumL_all {l : List OrderItemOptionRow} {x : String}
    (h : ∀ r ∈ l, r.orderItemId = x ∧ r.status = OrderItemStatus.ACTIVE) :
    optionTotalSumL l x = (l.map (fun r => r.totalPrice)).sum := by
  induction l with
  | nil => rfl
  | cons a t ih =>
    obtain ⟨h1, h2⟩ := h a (List.mem_cons_self a t)
    have ht := ih (fun r hr => h r (List.mem_cons_of_mem a hr))
    unfold optionTotalSumL at ht ⊢
    rw [List.filter_cons]
    simp only [h1, h2, beq_self_eq_true, Bool.true_and, decide_True, if_true, List.map_cons,
      List.sum_cons, ht]

/-- The option sum of one freshly created item inside the flattened list of
all freshly created option rows: provided the created item ids are
duplicate-free and every option row points at its own item, only the own
block contributes. -/
theorem optionTotalSumL_flatten {pairs : List (OrderItemRow × List OrderItemOptionRow)}
    (hnd : (pairs.map (fun p => p.1.id)).Nodup)
    (hgood : ∀ p ∈ pairs, ∀ r ∈ p.2, r.orderItemId = p.1.id ∧ r.status = OrderItemStatus.ACTIVE)
    {p : OrderItemRow × List OrderItemOptionRow} (hp : p ∈ pairs) :
    optionTotalSumL ((pairs.map (fun q => q.2)).flatten) p.1.id =
      (p.2.map (fun r => r.totalPrice)).sum := by
  induction pairs with
  | nil => simp at hp
  | cons q rest ih =>
    have hhead : q.1.id ∉ rest.map (fun p => p.1.id) := (List.nodup_cons.mp hnd).1
    have hndr : (rest.map (fun p => p.1.id)).Nodup := (List.nodup_cons.mp hnd).2
    have hgq := hgood q (List.mem_cons_self q rest)
    have hgr : ∀ p' ∈ rest, ∀ r ∈ p'.2, r.orderItemId = p'.1.id ∧ r.status = OrderItemStatus.ACTIVE :=
      fun p' hp' => hgood p' (List.mem_cons_of_mem q hp')
    rw [List.map_cons, List.flatten_cons, optionTotalSumL_append]
    rcases List.mem_cons.mp hp with hpq | hpr
    · subst hpq
      rw [optionTotalSumL_all hgq]
      have hzero : optionTotalSumL ((rest.map (fun q => q.2)).flatten) p.1.id = 0 := by
        apply optionTotalSumL_zero
        intro r hr
        rcases List.mem_flatten.mp hr with ⟨s, hs, hrs⟩
        rcases List.mem_map.mp hs with ⟨p', hp', hps⟩
        have := (hgr p' hp' r (hps ▸ hrs)).1
        rw [this]
        exact beq_eq_false_iff_ne.mpr
          (fun he => hhead (List.mem_map.mpr ⟨p', hp', he⟩))
      rw [hzero]
      ring
    · have hzero : optionTotalSumL q.2 p.1.id = 0 := by
        apply optionTotalSumL_zero
        intro r hr
        rw [(hgq r hr).1]
        exact beq_eq_false_iff_ne.mpr
          (fun he => hhead (List.mem_map.mpr ⟨p, hpr, he.symm⟩))
      rw [hzero, ih hndr hgr hpr]
      ring


/-! ## Enrichment lemmas for order creation and item appending -/

theorem enrichOptionsLoop_spec {db : DB} {itemRowId : String} {validate : Bool}
    {opts : List NewOptionInput} {acc : List OrderItemOptionRow} {accTotal : Int}
    {rows : List OrderItemOptionRow} {t : Int}
    (h : enrichOptionsLoop db itemRowId validate acc accTotal opts = .ok (rows, t)) :
    ∃ new, rows = acc ++ new ∧ t = accTotal + (new.map (fun r => r.totalPrice)).sum ∧
      ∀ r ∈ new, r.orderItemId = itemRowId ∧ r.status = OrderItemStatus.ACTIVE := by
  induction opts generalizing acc accTotal with
  | nil =>
    simp only [enrichOptionsLoop] at h
    have h' := Except.ok.inj h
    have h1 : acc = rows := congrArg Prod.fst h'
    have h2 : accTotal = t := congrArg Prod.snd h'
    exact ⟨[], by rw [← h1, List.append_nil], by rw [← h2]; simp,
           by intro r hr; simp at hr⟩
  | cons opt rest ih =>
    simp only [enrichOptionsLoop] at h
    split at h
    · exact absurd h (by simp)
    · cases hfo : foodOptionOf db opt.optionId with
      | none => simp only [hfo] at h; exact absurd h (by simp)
      | some foodOption =>
        simp only [hfo] at h
        obtain ⟨new, hrows, ht, hall⟩ := ih h
        refine ⟨⟨opt.rowId, itemRowId, opt.optionId, opt.quantity, foodOption.extraPrice,
                 foodOption.extraPrice * opt.quantity, OrderItemStatus.ACTIVE⟩ :: new,
                ?_, ?_, ?_⟩
        · rw [hrows]; simp
        · rw [ht, List.map_cons, List.sum_cons]; ring
        · intro r hr
          rcases List.mem_cons.mp hr with hr1 | hr2
          · subst hr1; exact ⟨rfl, rfl⟩
          · exact hall r hr2

theorem enrichItemsLoop_spec {db : DB} {orderId orderTypeId : String} {validate : Bool}
    {items : List NewOrderItemInput}
    {acc : List (OrderItemRow × List OrderItemOptionRow)} {accTotal : Int}
    {pairs : List (OrderItemRow × List OrderItemOptionRow)} {t : Int}
    (h : enrichItemsLoop db orderId orderTypeId validate acc accTotal items = .ok (pairs, t)) :
    ∃ new, pairs = acc ++ new ∧
      t = accTotal + (new.map (fun p => p.1.totalPrice)).sum ∧
      new.map (fun p => p.1.id) = items.map (fun i => i.rowId) ∧
      ∀ p ∈ new, p.1.orderId = orderId ∧ p.1.status = OrderItemStatus.ACTIVE ∧
        p.1.totalPrice = p.1.quantity * p.1.unitPrice + (p.2.map (fun r => r.totalPrice)).sum ∧
        ∀ r ∈ p.2, r.orderItemId = p.1.id ∧ r.status = OrderItemStatus.ACTIVE := by
  induction items generalizing acc accTotal with
  | nil =>
    simp only [enrichItemsLoop] at h
    have h' := Except.ok.inj h
    have h1 : acc = pairs := congrArg Prod.fst h'
    have h2 : accTotal = t := congrArg Prod.snd h'
    exact ⟨[], by rw [← h1, List.append_nil], by rw [← h2]; simp, rfl,
           by intro p hp; simp at hp⟩
  | cons item rest ih =>
    simp only [enrichItemsLoop] at h
    split at h
    · exact absurd h (by simp)
    · cases hfp : priceOf db item.foodId orderTypeId with
      | none => simp only [hfp] at h; exact absurd h (by simp)
      | some foodPrice =>
        simp only [hfp] at h
        cases hol : enrichOptionsLoop db item.rowId validate [] 0 item.options with
        | error e => simp only [hol] at h; exact absurd h (by simp)
        | ok pr =>
          obtain ⟨optionRows, itemOptionsTotal⟩ := pr
          simp only [hol] at h
          obtain ⟨optNew, hoptRows, hoptT, hoptAll⟩ := enrichOptionsLoop_spec hol
          rw [List.nil_append] at hoptRows
          rw [← hoptRows] at hoptT hoptAll
          obtain ⟨new, hpairs, ht, hids, hall⟩ := ih h
          refine ⟨(⟨item.rowId, orderId, item.foodId, item.quantity, foodPrice.price,
                    foodPrice.price * item.quantity + itemOptionsTotal,
                    OrderItemStatus.ACTIVE⟩, optionRows) :: new, ?_, ?_, ?_, ?_⟩
          · rw [hpairs]; simp
          · rw [ht, List.map_cons, List.sum_cons]; ring
          · rw [List.map_cons, List.map_cons, hids]
          · intro p hp
            rcases List.mem_cons.mp hp with hp1 | hp2
            · subst hp1
              refine ⟨rfl, rfl, ?_, ?_⟩
              · show foodPrice.price * item.quantity + itemOptionsTotal =
                  item.quantity * foodPrice.price + (optionRows.map (fun r => r.totalPrice)).sum
                rw [hoptT]; ring
              · intro r hr
                exact hoptAll r hr
            · exact hall p hp2

theorem upsertOrderCounter_frame (db : DB) (out : String) :
    (upsertOrderCounter db out).1.orders = db.orders ∧
    (upsertOrderCounter db out).1.orderItems = db.orderItems ∧
    (upsertOrderCounter db out).1.orderItemOptions = db.orderItemOptions := by
  unfold upsertOrderCounter
  cases h : db.orderNumberCounters.find? (fun c => c.outletId == out) <;>
    exact ⟨rfl, rfl, rfl⟩

/-! ## Invariant bookkeeping for freshly created item/option rows -/

theorem activeItemSumL_map_fst {pairs : List (OrderItemRow × List OrderItemOptionRow)}
    {x : String}
    (hall : ∀ p ∈ pairs, p.1.orderId = x ∧ p.1.status = OrderItemStatus.ACTIVE) :
    activeItemSumL (pairs.map (fun p => p.1)) x = (pairs.map (fun p => p.1.totalPrice)).sum := by
  rw [activeItemSumL_all (by
    intro it hit
    rcases List.mem_map.mp hit with ⟨p, hp, hpe⟩
    exact hpe ▸ hall p hp), List.map_map]
  rfl

theorem activeItemSumL_map_fst_zero {pairs : List (OrderItemRow × List OrderItemOptionRow)}
    {x : String} (hall : ∀ p ∈ pairs, p.1.orderId ≠ x) :
    activeItemSumL (pairs.map (fun p => p.1)) x = 0 := by
  apply activeItemSumL_zero
  intro it hit
  rcases List.mem_map.mp hit with ⟨p, hp, hpe⟩
  exact beq_eq_false_iff_ne.mpr (hpe ▸ hall p hp)

/-- Appending duplicate-free fresh item/option blocks preserves the item
half of the totals invariant. -/
theorem totals_items_extend
    {oldItems : List OrderItemRow} {oldOpts : List OrderItemOptionRow}
    {pairs : List (OrderItemRow × List OrderItemOptionRow)}
    (hInv2 : ∀ it ∈ oldItems, it.status = OrderItemStatus.ACTIVE →
        it.totalPrice = it.quantity * it.unitPrice + optionTotalSumL oldOpts it.id)
    (hnd : (pairs.map (fun p => p.1.id)).Nodup)
    (hIt : ∀ it ∈ oldItems, it.id ∉ pairs.map (fun p => p.1.id))
    (hOpt : ∀ op ∈ oldOpts, op.orderItemId ∉ pairs.map (fun p => p.1.id))
    (hall : ∀ p ∈ pairs,
        p.1.totalPrice = p.1.quantity * p.1.unitPrice + (p.2.map (fun r => r.totalPrice)).sum ∧
        ∀ r ∈ p.2, r.orderItemId = p.1.id ∧ r.status = OrderItemStatus.ACTIVE) :
    ∀ it ∈ oldItems ++ pairs.map (fun p => p.1), it.status = OrderItemStatus.ACTIVE →
      it.totalPrice = it.quantity * it.unitPrice +
        optionTotalSumL (oldOpts ++ (pairs.map (fun p => p.2)).flatten) it.id := by
  intro it hit hact
  rw [optionTotalSumL_append]
  rcases List.mem_append.mp hit with hold | hnew
  · have he := hInv2 it hold hact
    have hz : optionTotalSumL ((pairs.map (fun p => p.2)).flatten) it.id = 0 := by
      apply optionTotalSumL_zero
      intro r hr
      rcases List.mem_flatten.mp hr with ⟨s, hs, hrs⟩
      rcases List.mem_map.mp hs with ⟨p, hp, hps⟩
      have hre := ((hall p hp).2 r (hps ▸ hrs)).1
      rw [hre]
      exact beq_eq_false_iff_ne.mpr
        (fun hpe => hIt it hold (by rw [← hpe]; exact List.mem_map.mpr ⟨p, hp, rfl⟩))
    rw [hz, add_zero]
    exact he
  · rcases List.mem_map.mp hnew with ⟨p, hp, hpe⟩
    subst hpe
    have hz : optionTotalSumL oldOpts p.1.id = 0 := by
      apply optionTotalSumL_zero
      intro r hr
      exact beq_eq_false_iff_ne.mpr
        (fun hre => hOpt r hr (by rw [hre]; exact List.mem_map.mpr ⟨p, hp, rfl⟩))
    rw [hz, zero_add, optionTotalSumL_flatten hnd (fun q hq => (hall q hq).2) hp]
    exact (hall p hp).1


/-- Order creation establishes the totals invariant, provided the supplied
row ids (produced as uuids by the database) are fresh and duplicate-free. -/
theorem createOrder_totalsInvariant {db : DB} {dt : Option String}
    {w out otid : String} {items : List NewOrderItemInput} {oid : String} {cAt : Int}
    {db' : DB}
    (hInv : totalsInvariant db)
    (hnd : (items.map (fun i => i.rowId)).Nodup)
    (hOrd : ∀ o ∈ db.orders, o.id ≠ oid)
    (hRef : ∀ it ∈ db.orderItems, it.orderId ≠ oid)
    (hIt : ∀ it ∈ db.orderItems, it.id ∉ items.map (fun i => i.rowId))
    (hOpt : ∀ op ∈ db.orderItemOptions, op.orderItemId ∉ items.map (fun i => i.rowId))
    (h : createOrder db dt w out otid items oid cAt = .ok db') :
    totalsInvariant db' := by
  unfold createOrder at h
  split at h
  case isTrue => exact absurd h (by simp)
  split at h
  case isTrue => exact absurd h (by simp)
  split at h
  case isTrue => exact absurd h (by simp)
  have hex : ∃ x, orderTypeOf db otid = some x := by
    cases hx : orderTypeOf db otid
    · simp only [hx] at h; exact absurd h (by simp)
    · exact ⟨_, rfl⟩
  obtain ⟨orderType, hot⟩ := hex
  simp only [hot] at h
  split at h
  case isTrue => exact absurd h (by simp)
  have hex2 : ∃ pr, enrichItemsLoop db oid otid false [] 0 items = .ok pr := by
    cases hx : enrichItemsLoop db oid otid false [] 0 items
    · simp only [hx] at h; exact absurd h (by simp)
    · exact ⟨_, rfl⟩
  obtain ⟨⟨pairs, subtotal⟩, henr⟩ := hex2
  simp only [henr] at h
  obtain ⟨new, hpairs, ht, hids, hall⟩ := enrichItemsLoop_spec henr
  rw [List.nil_append] at hpairs
  rw [← hpairs] at ht hids hall
  rw [zero_add] at ht
  have hO : db'.orders = db.orders ++
      [⟨oid, pad5 (upsertOrderCounter db out).2, OrderStatus.PENDING, subtotal, subtotal,
        otid, out, cAt⟩] := by
    rw [← Except.ok.inj h]
    show (upsertOrderCounter db out).1.orders ++ _ = _
    rw [(upsertOrderCounter_frame db out).1]
  have hI : db'.orderItems = db.orderItems ++ pairs.map (fun p => p.1) := by
    rw [← Except.ok.inj h]
    show (upsertOrderCounter db out).1.orderItems ++ _ = _
    rw [(upsertOrderCounter_frame db out).2.1]
  have hP : db'.orderItemOptions = db.orderItemOptions ++ (pairs.map (fun p => p.2)).flatten := by
    rw [← Except.ok.inj h]
    show (upsertOrderCounter db out).1.orderItemOptions ++ _ = _
    rw [(upsertOrderCounter_frame db out).2.2]
  constructor
  · intro o ho hns
    rw [hO] at ho
    rcases List.mem_append.mp ho with hold | hnewo
    · obtain ⟨e1, e2⟩ := hInv.1 o hold hns
      have hz : activeItemSumL (pairs.map (fun p => p.1)) o.id = 0 := by
        apply activeItemSumL_map_fst_zero
        intro p hp
        rw [(hall p hp).1]
        exact fun he => hOrd o hold he.symm
      refine ⟨e1, ?_⟩
      unfold activeItemSum at e2 ⊢
      rw [hI, activeItemSumL_append, hz, add_zero]
      exact e2
    · have ho' : o = ⟨oid, pad5 (upsertOrderCounter db out).2, OrderStatus.PENDING, subtotal,
          subtotal, otid, out, cAt⟩ := by
        simpa using hnewo
      subst ho'
      refine ⟨rfl, ?_⟩
      show subtotal = activeItemSum db' oid
      have hz : activeItemSumL db.orderItems oid = 0 := by
        apply activeItemSumL_zero
        intro it hit
        exact beq_eq_false_iff_ne.mpr (hRef it hit)
      have hs : activeItemSumL (pairs.map (fun p => p.1)) oid =
          (pairs.map (fun p => p.1.totalPrice)).sum := by
        apply activeItemSumL_map_fst
        intro p hp
        exact ⟨(hall p hp).1, (hall p hp).2.1⟩
      unfold activeItemSum
      rw [hI, activeItemSumL_append, hz, zero_add, hs]
      exact ht
  · intro it hit hact
    have hndIds : (pairs.map (fun p => p.1.id)).Nodup := by rw [hids]; exact hnd
    have hIt2 : ∀ it2 ∈ db.orderItems, it2.id ∉ pairs.map (fun p => p.1.id) := by
      intro it2 hit2
      rw [hids]
      exact hIt it2 hit2
    have hOpt2 : ∀ op ∈ db.orderItemOptions, op.orderItemId ∉ pairs.map (fun p => p.1.id) := by
      intro op hop
      rw [hids]
      exact hOpt op hop
    have key := totals_items_extend hInv.2 hndIds hIt2 hOpt2
      (fun p hp => ⟨(hall p hp).2.2.1, (hall p hp).2.2.2⟩)
    show it.totalPrice = it.quantity * it.unitPrice + optionTotalSumL db'.orderItemOptions it.id
    rw [hP]
    exact key it (by rw [← hI]; exact hit) hact

/-- Appending items to an order preserves the totals invariant, provided
the stored order ids are duplicate-free and the created row ids are fresh. -/
theorem addItems_totalsInvariant {db : DB} {oid : String}
    {items : List NewOrderItemInput} {db' : DB}
    (hInv : totalsInvariant db)
    (hndO : (db.orders.map (fun o => o.id)).Nodup)
    (hnd : (items.map (fun i => i.rowId)).Nodup)
    (hIt : ∀ it ∈ db.orderItems, it.id ∉ items.map (fun i => i.rowId))
    (hOpt : ∀ op ∈ db.orderItemOptions, op.orderItemId ∉ items.map (fun i => i.rowId))
    (h : addItemsToOrder db oid items = .ok db') :
    totalsInvariant db' := by
  unfold addItemsToOrder at h
  have hex : ∃ x, orderOf db oid = some x := by
    cases hx : orderOf db oid
    · simp only [hx] at h; exact absurd h (by simp)
    · exact ⟨_, rfl⟩
  obtain ⟨ord, hord⟩ := hex
  simp only [hord] at h
  have hex2 : ∃ pr, enrichItemsLoop db oid ord.orderTypeId true [] 0 items = .ok pr := by
    cases hx : enrichItemsLoop db oid ord.orderTypeId true [] 0 items
    · simp only [hx] at h; exact absurd h (by simp)
    · exact ⟨_, rfl⟩
  obtain ⟨⟨pairs, t⟩, henr⟩ := hex2
  simp only [henr] at h
  obtain ⟨new, hpairs, ht, hids, hall⟩ := enrichItemsLoop_spec henr
  rw [List.nil_append] at hpairs
  rw [← hpairs] at ht hids hall
  rw [zero_add] at ht
  unfold orderOf at hord
  have hbeq := List.find?_some (p := fun o : OrderRow => o.id == oid) hord
  have hoid : ord.id = oid := eq_of_beq hbeq
  obtain ⟨l₁, l₂, hdec, hfalse, hupd⟩ := updateFirst_decomp
    (f := fun o => { o with subtotal := o.subtotal + t, total := o.total + t })
    (show db.orders.find? (fun o => o.id == ord.id) = some ord from by rw [hoid]; exact hord)
  have hid12 : ∀ o : OrderRow, o ∈ l₁ ∨ o ∈ l₂ → o.id ≠ ord.id := by
    intro o hmem
    rcases hmem with h1 | h2
    · intro he
      have hf := hfalse o h1
      rw [he] at hf
      simp at hf
    · have hmapped : db.orders.map (fun o => o.id) =
          l₁.map (fun o => o.id) ++ ord.id :: l₂.map (fun o => o.id) := by
        rw [hdec]; simp
      rw [hmapped] at hndO
      have hnocc : ord.id ∉ l₂.map (fun o => o.id) :=
        (List.nodup_cons.mp (List.nodup_append.mp hndO).2.1).1
      intro he
      exact hnocc (List.mem_map.mpr ⟨o, h2, he⟩)
  have hO : db'.orders =
      l₁ ++ ({ ord with subtotal := ord.subtotal + t, total := ord.total + t } : OrderRow) :: l₂ := by
    rw [← Except.ok.inj h]
    show updateFirst db.orders (fun o => o.id == ord.id)
      (fun o => { o with subtotal := o.subtotal + t, total := o.total + t }) = _
    rw [hupd]
  have hI : db'.orderItems = db.orderItems ++ pairs.map (fun p => p.1) := by
    rw [← Except.ok.inj h]
  have hP : db'.orderItemOptions = db.orderItemOptions ++ (pairs.map (fun p => p.2)).flatten := by
    rw [← Except.ok.inj h]
  have hordmem : ord ∈ db.orders := by
    rw [hdec]
    exact List.mem_append.mpr (Or.inr (List.mem_cons_self _ _))
  have hzfresh : ∀ x, x ≠ ord.id → activeItemSumL (pairs.map (fun p => p.1)) x = 0 := by
    intro x hx
    apply activeItemSumL_map_fst_zero
    intro p hp
    rw [(hall p hp).1, ← hoid]
    exact fun he => hx he.symm
  constructor
  · intro o ho hns
    rw [hO] at ho
    rcases List.mem_append.mp ho with h1 | hrest
    · have homem : o ∈ db.orders := by
        rw [hdec]; exact List.mem_append.mpr (Or.inl h1)
      obtain ⟨e1, e2⟩ := hInv.1 o homem hns
      refine ⟨e1, ?_⟩
      unfold activeItemSum at e2 ⊢
      rw [hI, activeItemSumL_append, hzfresh o.id (hid12 o (Or.inl h1)), add_zero]
      exact e2
    · rcases List.mem_cons.mp hrest with hupd1 | h2
      · subst hupd1
        have hns' : ord.status ≠ OrderStatus.VOID := hns
        obtain ⟨e1, e2⟩ := hInv.1 ord hordmem hns'
        constructor
        · show ord.total + t = ord.subtotal + t
          rw [e1]
        · show ord.subtotal + t = activeItemSum db' ord.id
          unfold activeItemSum
          rw [hI, activeItemSumL_append]
          have hs : activeItemSumL (pairs.map (fun p => p.1)) ord.id =
              (pairs.map (fun p => p.1.totalPrice)).sum := by
            apply activeItemSumL_map_fst
            intro p hp
            refine ⟨?_, (hall p hp).2.1⟩
            rw [hoid]
            exact (hall p hp).1
          rw [hs]
          unfold activeItemSum at e2
          rw [e2, ht]
      · have homem : o ∈ db.orders := by
          rw [hdec]; exact List.mem_append.mpr (Or.inr (List.mem_cons_of_mem _ h2))
        obtain ⟨e1, e2⟩ := hInv.1 o homem hns
        refine ⟨e1, ?_⟩
        unfold activeItemSum at e2 ⊢
        rw [hI, activeItemSumL_append, hzfresh o.id (hid12 o (Or.inr h2)), add_zero]
        exact e2
  · intro it hit hact
    have hndIds : (pairs.map (fun p => p.1.id)).Nodup := by rw [hids]; exact hnd
    have hIt2 : ∀ it2 ∈ db.orderItems, it2.id ∉ pairs.map (fun p => p.1.id) := by
      intro it2 hit2
      rw [hids]
      exact hIt it2 hit2
    have hOpt2 : ∀ op ∈ db.orderItemOptions, op.orderItemId ∉ pairs.map (fun p => p.1.id) := by
      intro op hop
      rw [hids]
      exact hOpt op hop
    have key := totals_items_extend hInv.2 hndIds hIt2 hOpt2
      (fun p hp => ⟨(hall p hp).2.2.1, (hall p hp).2.2.2⟩)
    show it.totalPrice = it.quantity * it.unitPrice + optionTotalSumL db'.orderItemOptions it.id
    rw [hP]
    exact key it (by rw [← hI]; exact hit) hact


/-! ## Lemmas about the batch update loops -/

theorem qty_if_collapse (c : Bool) (q : Int) :
    (if (if c then OrderItemStatus.CANCELED else OrderItemStatus.ACTIVE) =
        OrderItemStatus.CANCELED then (0 : Int) else q) = if c then 0 else q := by
  cases c <;> simp

/-- The option loop never touches orders, items, prices, or catalog
options, and preserves every option row's id and `FoodOption` reference. -/
theorem batchOptionLoop_frame {db : DB} {acc : Int} {opts : List UpdateOptionInput}
    {db2 : DB} {s : Int}
    (h : batchOptionLoop db acc opts = .ok (db2, s)) :
    db2.orders = db.orders ∧ db2.orderItems = db.orderItems ∧
    db2.foodPrices = db.foodPrices ∧ db2.foodOptions = db.foodOptions ∧
    optProj db2 = optProj db := by
  induction opts generalizing db acc with
  | nil =>
    have h' := Except.ok.inj h
    have hdb : db = db2 := congrArg Prod.fst h'
    subst hdb
    exact ⟨rfl, rfl, rfl, rfl, rfl⟩
  | cons opt rest ih =>
    simp only [batchOptionLoop] at h
    cases hio : itemOptionOf db opt.id with
    | none => simp only [hio] at h; exact absurd h (by simp)
    | some eo =>
      simp only [hio] at h
      cases hfo : foodOptionOf db eo.optionId with
      | none => simp only [hfo] at h; exact absurd h (by simp)
      | some fo =>
        simp only [hfo] at h
        have hrec := ih h
        refine ⟨hrec.1, hrec.2.1, hrec.2.2.1, hrec.2.2.2.1, ?_⟩
        rw [hrec.2.2.2.2]
        show optProj _ = optProj db
        unfold optProj
        exact map_updateFirst (fun x => rfl)

theorem itemOptionOf_stab {db db2 : DB} (hproj : optProj db2 = optProj db) (k : String) :
    (itemOptionOf db2 k).map (fun r => (r.id, r.optionId)) =
      (itemOptionOf db k).map (fun r => (r.id, r.optionId)) := by
  unfold optProj at hproj
  unfold itemOptionOf
  exact find?_map_proj hproj (fun y => y.1 == k)

theorem optEntryTotal_stab {db db2 : DB}
    (hproj : optProj db2 = optProj db) (hfo : db2.foodOptions = db.foodOptions)
    (opt : UpdateOptionInput) : optEntryTotal db2 opt = optEntryTotal db opt := by
  have key := itemOptionOf_stab hproj opt.id
  unfold optEntryTotal
  cases h2 : itemOptionOf db2 opt.id with
  | none =>
    cases h1 : itemOptionOf db opt.id with
    | none => rfl
    | some r => rw [h1, h2] at key; exact absurd key (by simp)
  | some r2 =>
    cases h1 : itemOptionOf db opt.id with
    | none => rw [h1, h2] at key; exact absurd key (by simp)
    | some r =>
      rw [h1, h2] at key
      simp only [Option.map_some'] at key
      have hkey := Option.some.inj key
      have hopt : r2.optionId = r.optionId := congrArg Prod.snd hkey
      unfold foodOptionOf
      simp only [hfo, hopt]

theorem optEntriesTotal_stab {db db2 : DB}
    (hproj : optProj db2 = optProj db) (hfo : db2.foodOptions = db.foodOptions) :
    ∀ opts : List UpdateOptionInput, optEntriesTotal db2 opts = optEntriesTotal db opts := by
  intro opts
  induction opts with
  | nil => rfl
  | cons o rest ih =>
    unfold optEntriesTotal
    rw [optEntryTotal_stab hproj hfo o, ih]

/-- The accumulated `optionTotal` of the option loop is exactly the sum of
the request-listed option totals read off the pre-loop state. -/
theorem batchOptionLoop_total {db : DB} {acc : Int} {opts : List UpdateOptionInput}
    {db2 : DB} {s : Int}
    (h : batchOptionLoop db acc opts = .ok (db2, s)) :
    optEntriesTotal db opts = some (s - acc) := by
  induction opts generalizing db acc with
  | nil =>
    have h' := Except.ok.inj h
    have hs : acc = s := congrArg Prod.snd h'
    subst hs
    simp [optEntriesTotal]
  | cons opt rest ih =>
    simp only [batchOptionLoop] at h
    cases hio : itemOptionOf db opt.id with
    | none => simp only [hio] at h; exact absurd h (by simp)
    | some eo =>
      simp only [hio] at h
      cases hfo : foodOptionOf db eo.optionId with
      | none => simp only [hfo] at h; exact absurd h (by simp)
      | some fo =>
        simp only [hfo] at h
        have hrest := ih h
        have hproj : optProj { db with
            orderItemOptions := updateFirst db.orderItemOptions (fun r => r.id == opt.id)
              (fun r => { r with
                quantity := if opt.status == some "CANCELED" then 0 else opt.quantity,
                unitPrice := fo.extraPrice,
                totalPrice := (if opt.status == some "CANCELED" then 0 else opt.quantity) *
                  fo.extraPrice,
                status := if opt.status == some "CANCELED" then OrderItemStatus.CANCELED
                  else OrderItemStatus.ACTIVE }) } = optProj db := by
          unfold optProj
          exact map_updateFirst (fun x => rfl)
        have hstab := optEntriesTotal_stab hproj rfl rest
        have hhead : optEntryTotal db opt =
            some ((if opt.status == some "CANCELED" then 0 else opt.quantity) * fo.extraPrice) := by
          unfold optEntryTotal
          simp only [hio, hfo]
        rw [hstab] at hrest
        unfold optEntriesTotal
        simp only [hhead, hrest]
        congr 1
        ring


theorem itemOf_stab {db db2 : DB} (hproj : itemProj db2 = itemProj db) (k : String) :
    (itemOf db2 k).map (fun r => (r.id, r.foodId)) =
      (itemOf db k).map (fun r => (r.id, r.foodId)) := by
  unfold itemProj at hproj
  unfold itemOf
  exact find?_map_proj hproj (fun y => y.1 == k)

theorem expectedNewTotal_stab {db db2 : DB} {otid : String}
    (hi : itemProj db2 = itemProj db) (hfp : db2.foodPrices = db.foodPrices)
    (hop : optProj db2 = optProj db) (hfo : db2.foodOptions = db.foodOptions)
    (e : UpdateOrderItemInput) :
    expectedNewTotal db2 otid e = expectedNewTotal db otid e := by
  have key := itemOf_stab hi e.id
  have hopt := optEntriesTotal_stab hop hfo e.options
  unfold expectedNewTotal
  cases h2 : itemOf db2 e.id with
  | none =>
    cases h1 : itemOf db e.id with
    | none => rfl
    | some r => rw [h1, h2] at key; exact absurd key (by simp)
  | some r2 =>
    cases h1 : itemOf db e.id with
    | none => rw [h1, h2] at key; exact absurd key (by simp)
    | some r =>
      rw [h1, h2] at key
      simp only [Option.map_some'] at key
      have hkey := Option.some.inj key
      have hfood : r2.foodId = r.foodId := congrArg Prod.snd hkey
      unfold priceOf
      simp only [hfp, hfood, hopt]

/-- One outer-loop iteration of the batch update: the item row is resolved
globally by id, the price for the order's order type, the request-listed
options are summed, the row is rewritten, and the returned difference is
taken against the stored total. -/
theorem batchItemStep_spec {db : DB} {otid : String} {e : UpdateOrderItemInput}
    {dbm : DB} {d : Int}
    (h : batchItemStep db otid e = .ok (dbm, d)) :
    ∃ row fp s,
      itemOf db e.id = some row ∧
      priceOf db row.foodId otid = some fp ∧
      optEntriesTotal db e.options = some s ∧
      expectedNewTotal db otid e =
        some ((if e.status == some "CANCELED" then 0 else e.quantity) * fp.price + s) ∧
      d = (if e.status == some "CANCELED" then 0 else e.quantity) * fp.price + s
        - row.totalPrice ∧
      dbm.orders = db.orders ∧ dbm.foodPrices = db.foodPrices ∧
      dbm.foodOptions = db.foodOptions ∧ optProj dbm = optProj db ∧
      itemProj dbm = itemProj db ∧
      itemOf dbm e.id = some { row with
        quantity := if e.status == some "CANCELED" then 0 else e.quantity,
        unitPrice := fp.price,
        totalPrice := (if e.status == some "CANCELED" then 0 else e.quantity) * fp.price + s,
        status := if e.status == some "CANCELED" then OrderItemStatus.CANCELED
          else OrderItemStatus.ACTIVE } ∧
      ∀ x : String, x ≠ e.id → itemOf dbm x = itemOf db x := by
  unfold batchItemStep at h
  cases hit : itemOf db e.id with
  | none => simp only [hit] at h; exact absurd h (by simp)
  | some row =>
    simp only [hit] at h
    cases hfp : priceOf db row.foodId otid with
    | none => simp only [hfp] at h; exact absurd h (by simp)
    | some fp =>
      simp only [hfp] at h
      cases hol : batchOptionLoop db 0 e.options with
      | error err => simp only [hol] at h; exact absurd h (by simp)
      | ok pr =>
        obtain ⟨dbo, s⟩ := pr
        simp only [hol] at h
        rw [qty_if_collapse] at h
        have hframe := batchOptionLoop_frame hol
        have htot := batchOptionLoop_total hol
        rw [sub_zero] at htot
        set f : OrderItemRow → OrderItemRow := fun r => { r with
            quantity := if e.status == some "CANCELED" then 0 else e.quantity,
            unitPrice := fp.price,
            totalPrice := (if e.status == some "CANCELED" then 0 else e.quantity) * fp.price + s,
            status := if e.status == some "CANCELED" then OrderItemStatus.CANCELED
              else OrderItemStatus.ACTIVE } with hfdef
        have hdbm : dbm =
            { dbo with orderItems := updateFirst dbo.orderItems (fun r => r.id == e.id) f } :=
          (congrArg Prod.fst (Except.ok.inj h)).symm
        have hd : d = (if e.status == some "CANCELED" then 0 else e.quantity) * fp.price + s
            - row.totalPrice :=
          (congrArg Prod.snd (Except.ok.inj h)).symm
        have hexp : expectedNewTotal db otid e =
            some ((if e.status == some "CANCELED" then 0 else e.quantity) * fp.price + s) := by
          unfold expectedNewTotal
          simp only [hit, hfp, htot]
        have hip : itemProj dbm = itemProj db := by
          rw [hdbm]
          show (updateFirst dbo.orderItems (fun r => r.id == e.id) f).map
            (fun r => (r.id, r.foodId)) = itemProj db
          rw [map_updateFirst (f := f) (g := fun r : OrderItemRow => (r.id, r.foodId))
            (fun x => rfl)]
          show itemProj dbo = itemProj db
          unfold itemProj
          rw [hframe.2.1]
        have hupd : itemOf dbm e.id = some (f row) := by
          rw [hdbm]
          show (updateFirst dbo.orderItems (fun r => r.id == e.id) f).find?
            (fun it => it.id == e.id) = some (f row)
          rw [find?_updateFirst_self (p := fun it : OrderItemRow => it.id == e.id) (f := f)
            (fun x => rfl), hframe.2.1]
          rw [show db.orderItems.find? (fun it => it.id == e.id) = some row from hit]
          rfl
        have hoth : ∀ x : String, x ≠ e.id → itemOf dbm x = itemOf db x := by
          intro x hx
          rw [hdbm]
          show (updateFirst dbo.orderItems (fun r => r.id == e.id) f).find?
            (fun it => it.id == x) = itemOf db x
          rw [find?_updateFirst_ne (p := fun r : OrderItemRow => r.id == e.id)
            (q := fun it : OrderItemRow => it.id == x) (f := f) (fun y => rfl)
            (fun y hy => by
              show (y.id == x) = false
              rw [eq_of_beq hy]
              exact beq_eq_false_iff_ne.mpr (fun he => hx he.symm)), hframe.2.1]
          rfl
        refine ⟨row, fp, s, rfl, hfp, htot, hexp, hd, ?_, ?_, ?_, ?_, hip, hupd, hoth⟩
        · rw [hdbm]; exact hframe.1
        · rw [hdbm]; exact hframe.2.2.1
        · rw [hdbm]; exact hframe.2.2.2.1
        · rw [hdbm]; exact hframe.2.2.2.2

/-- The outer loop never touches orders, prices, or catalog options, and
preserves the identifying projections of the item and option tables. -/
theorem batchItemsLoop_frame {db : DB} {otid : String} {acc : Int}
    {items : List UpdateOrderItemInput} {db2 : DB} {s : Int}
    (h : batchItemsLoop db otid acc items = .ok (db2, s)) :
    db2.orders = db.orders ∧ db2.foodPrices = db.foodPrices ∧
    db2.foodOptions = db.foodOptions ∧ optProj db2 = optProj db ∧
    itemProj db2 = itemProj db := by
  induction items generalizing db acc with
  | nil =>
    have h' := Except.ok.inj h
    have hdb : db = db2 := congrArg Prod.fst h'
    subst hdb
    exact ⟨rfl, rfl, rfl, rfl, rfl⟩
  | cons e rest ih =>
    simp only [batchItemsLoop] at h
    cases hst : batchItemStep db otid e with
    | error err => simp only [hst] at h; exact absurd h (by simp)
    | ok pr =>
      obtain ⟨dbm, dd⟩ := pr
      simp only [hst] at h
      obtain ⟨row, fp, s', _, _, _, _, _, ho, hp, hfo, hop, hipr, _, _⟩ :=
        batchItemStep_spec hst
      have hrec := ih h
      exact ⟨hrec.1.trans ho, hrec.2.1.trans hp, hrec.2.2.1.trans hfo,
             hrec.2.2.2.1.trans hop, hrec.2.2.2.2.trans hipr⟩

/-- Items not named in the request are untouched by the outer loop. -/
theorem batchItemsLoop_preserves {db : DB} {otid : String} {acc : Int}
    {items : List UpdateOrderItemInput} {db2 : DB} {s : Int} {x : String}
    (h : batchItemsLoop db otid acc items = .ok (db2, s))
    (hx : ∀ e ∈ items, e.id ≠ x) :
    itemOf db2 x = itemOf db x := by
  induction items generalizing db acc with
  | nil =>
    have h' := Except.ok.inj h
    have hdb : db = db2 := congrArg Prod.fst h'
    subst hdb
    rfl
  | cons e rest ih =>
    simp only [batchItemsLoop] at h
    cases hst : batchItemStep db otid e with
    | error err => simp only [hst] at h; exact absurd h (by simp)
    | ok pr =>
      obtain ⟨dbm, dd⟩ := pr
      simp only [hst] at h
      obtain ⟨row, fp, s', _, _, _, _, _, _, _, _, _, _, _, hoth⟩ := batchItemStep_spec hst
      have hrest := ih h (fun e' he' => hx e' (List.mem_cons_of_mem e he'))
      rw [hrest]
      exact hoth x (fun he => hx e (List.mem_cons_self e rest) he.symm)

/-- Every item named in a duplicate-free request ends with exactly the
recomputed total read off the pre-loop state. -/
theorem batchItemsLoop_touched {db : DB} {otid : String} {acc : Int}
    {items : List UpdateOrderItemInput} {db2 : DB} {s : Int}
    (h : batchItemsLoop db otid acc items = .ok (db2, s))
    (hnd : (items.map (fun e => e.id)).Nodup) :
    ∀ e ∈ items, (itemOf db2 e.id).map (fun r => r.totalPrice) =
      expectedNewTotal db otid e := by
  induction items generalizing db acc with
  | nil => intro e he; exact absurd he (by simp)
  | cons e0 rest ih =>
    simp only [batchItemsLoop] at h
    cases hst : batchItemStep db otid e0 with
    | error err => simp only [hst] at h; exact absurd h (by simp)
    | ok pr =>
      obtain ⟨dbm, dd⟩ := pr
      simp only [hst] at h
      obtain ⟨row, fp, s', hit, hfp2, htot, hexp, hd, ho, hp, hfo, hop, hipr, hupd, hoth⟩ :=
        batchItemStep_spec hst
      have hni : e0.id ∉ rest.map (fun e => e.id) := (List.nodup_cons.mp hnd).1
      have hndr : (rest.map (fun e => e.id)).Nodup := (List.nodup_cons.mp hnd).2
      intro e he
      rcases List.mem_cons.mp he with he0 | her
      · subst he0
        have hpres : itemOf db2 e.id = itemOf dbm e.id :=
          batchItemsLoop_preserves h
            (fun e' he' heq => hni (by rw [← heq]; exact List.mem_map.mpr ⟨e', he', rfl⟩))
        rw [hpres, hupd, hexp]
        rfl
      · have hrec := ih h hndr e her
        rw [hrec]
        exact expectedNewTotal_stab hipr hp hop hfo e

/-- The batch update preserves `total = subtotal` across all orders: the
single accumulated difference is applied to both fields of the target. -/
theorem batchUpdateItems_total_eq_subtotal {db : DB} {oid : String}
    {items : List UpdateOrderItemInput} {db' : DB}
    (h : batchUpdateItems db oid items = .ok db')
    (hEq : ∀ o ∈ db.orders, o.total = o.subtotal) :
    ∀ o ∈ db'.orders, o.total = o.subtotal := by
  unfold batchUpdateItems at h
  have hex : ∃ x, orderOf db oid = some x := by
    cases hx : orderOf db oid
    · simp only [hx] at h; exact absurd h (by simp)
    · exact ⟨_, rfl⟩
  obtain ⟨ord, hord⟩ := hex
  simp only [hord] at h
  have hex2 : ∃ pr, batchItemsLoop db ord.orderTypeId 0 items = .ok pr := by
    cases hx : batchItemsLoop db ord.orderTypeId 0 items
    · simp only [hx] at h; exact absurd h (by simp)
    · exact ⟨_, rfl⟩
  obtain ⟨⟨dbl, t⟩, hloop⟩ := hex2
  simp only [hloop] at h
  have hframe := batchItemsLoop_frame hloop
  have hO : db'.orders = updateFirst dbl.orders (fun o => o.id == ord.id)
      (fun o => { o with subtotal := o.subtotal + t, total := o.total + t }) := by
    rw [← Except.ok.inj h]
  intro o ho
  rw [hO] at ho
  rcases mem_updateFirst ho with hmem | ⟨y, hy, hxy⟩
  · exact hEq o (by rw [← hframe.1]; exact hmem)
  · subst hxy
    have hym : y ∈ db.orders := by rw [← hframe.1]; exact List.mem_of_find?_eq_some hy
    show y.total + t = y.subtotal + t
    rw [hEq y hym]

/-- Every item a duplicate-free batch request names ends with the
recomputed total `expectedNewTotal` read off the pre-update state. -/
theorem batchUpdateItems_item_totals {db : DB} {oid : String}
    {items : List UpdateOrderItemInput} {db' : DB} {ord : OrderRow}
    (h : batchUpdateItems db oid items = .ok db')
    (hord : orderOf db oid = some ord)
    (hnd : (items.map (fun e => e.id)).Nodup) :
    ∀ e ∈ items, (itemOf db' e.id).map (fun r => r.totalPrice) =
      expectedNewTotal db ord.orderTypeId e := by
  unfold batchUpdateItems at h
  simp only [hord] at h
  have hex2 : ∃ pr, batchItemsLoop db ord.orderTypeId 0 items = .ok pr := by
    cases hx : batchItemsLoop db ord.orderTypeId 0 items
    · simp only [hx] at h; exact absurd h (by simp)
    · exact ⟨_, rfl⟩
  obtain ⟨⟨dbl, t⟩, hloop⟩ := hex2
  simp only [hloop] at h
  have hitems : db'.orderItems = dbl.orderItems := by
    rw [← Except.ok.inj h]
  intro e he
  have hkey := batchItemsLoop_touched hloop hnd e he
  rw [show itemOf db' e.id = itemOf dbl e.id from by unfold itemOf; rw [hitems]]
  exact hkey


/-- **C10**: in the batch update, a request entry whose `status` field is
omitted is coerced to ACTIVE (only the literal string "CANCELED" yields
CANCELED); so updating only the quantity of a previously CANCELED order
item silently reactivates it — the row comes back ACTIVE with the
recomputed total `quantity * price`, and the difference against the stored
(zeroed) total is added to the order's `subtotal` and `total`. -/
theorem batch_omitted_status_reactivates {db : DB} {oid : String} {ord : OrderRow}
    {itemId : String} {q : Int} {row : OrderItemRow} {fp : FoodPriceRow} {db' : DB}
    (hord : orderOf db oid = some ord)
    (hit : itemOf db itemId = some row)
    (_hcanc : row.status = OrderItemStatus.CANCELED)
    (hfp : priceOf db row.foodId ord.orderTypeId = some fp)
    (h : batchUpdateItems db oid [⟨itemId, q, none, []⟩] = .ok db') :
    (itemOf db' itemId).map (fun r => (r.status, r.quantity, r.totalPrice)) =
      some (OrderItemStatus.ACTIVE, q, q * fp.price) ∧
    (orderOf db' oid).map (fun o => (o.subtotal, o.total)) =
      some (ord.subtotal + (q * fp.price - row.totalPrice),
            ord.total + (q * fp.price - row.totalPrice)) := by
  unfold batchUpdateItems at h
  simp only [hord] at h
  have hex2 : ∃ pr, batchItemsLoop db ord.orderTypeId 0 [⟨itemId, q, none, []⟩] = .ok pr := by
    cases hx : batchItemsLoop db ord.orderTypeId 0 [⟨itemId, q, none, []⟩]
    · simp only [hx] at h; exact absurd h (by simp)
    · exact ⟨_, rfl⟩
  obtain ⟨⟨dbl, t⟩, hloop⟩ := hex2
  simp only [hloop] at h
  have hstep : ∃ prs, batchItemStep db ord.orderTypeId ⟨itemId, q, none, []⟩ = .ok prs := by
    cases hx : batchItemStep db ord.orderTypeId ⟨itemId, q, none, []⟩
    · simp only [batchItemsLoop, hx] at hloop; exact absurd hloop (by simp)
    · exact ⟨_, rfl⟩
  obtain ⟨⟨dbm, dd⟩, hst⟩ := hstep
  have hframeL := batchItemsLoop_frame hloop
  simp only [batchItemsLoop, hst] at hloop
  have hdbl : dbm = dbl := congrArg Prod.fst (Except.ok.inj hloop)
  have ht : 0 + dd = t := congrArg Prod.snd (Except.ok.inj hloop)
  obtain ⟨row', fp', s', hit', hfp', htot', hexp', hd', ho', hp', hfo', hop', hipr', hupd', hoth'⟩ :=
    batchItemStep_spec hst
  have hrow : row' = row := Option.some.inj (hit'.symm.trans hit)
  have hcond : ((⟨itemId, q, none, []⟩ : UpdateOrderItemInput).status == some "CANCELED") =
      false := rfl
  simp only [hcond, Bool.false_eq_true, if_false] at hupd' hd'
  rw [hrow] at hfp'
  have hfpe : fp' = fp := Option.some.inj (hfp'.symm.trans hfp)
  have hs0 : (some (0 : Int) : Option Int) = some s' := htot'
  have hse : s' = 0 := (Option.some.inj hs0).symm
  rw [hrow, hfpe, hse, add_zero] at hupd' hd'
  constructor
  · rw [show itemOf db' itemId = itemOf dbm itemId from by
        unfold itemOf
        rw [show db'.orderItems = dbl.orderItems from by rw [← Except.ok.inj h], ← hdbl],
      hupd']
    rfl
  · have hoid : ord.id = oid := by
      unfold orderOf at hord
      exact eq_of_beq (List.find?_some (p := fun o : OrderRow => o.id == oid) hord)
    have hO : db'.orders = updateFirst dbl.orders (fun o => o.id == ord.id)
        (fun o => { o with subtotal := o.subtotal + t, total := o.total + t }) := by
      rw [← Except.ok.inj h]
    have htval : t = q * fp.price - row.totalPrice := by
      rw [← ht, hd']
      ring
    show (db'.orders.find? (fun o => o.id == oid)).map (fun o => (o.subtotal, o.total)) = _
    rw [hO, show (fun o : OrderRow => o.id == ord.id) = (fun o : OrderRow => o.id == oid) from
        by rw [hoid]]
    rw [find?_updateFirst_self (p := fun o : OrderRow => o.id == oid)
      (f := fun o => { o with subtotal := o.subtotal + t, total := o.total + t })
      (fun x => rfl)]
    rw [hframeL.1,
      show db.orders.find? (fun o => o.id == oid) = some ord from hord, htval]
    rfl


/-- **C10** witness: reactivating the canceled item of `c10Db` with a
quantity-only update of 3 units yields an ACTIVE row with total 30000 and
bumps the order's subtotal/total by the difference 30000. -/
theorem batch_omitted_status_reactivates_witness :
    (itemOf (okOr DB.empty (batchUpdateItems c10Db "o1" [⟨"i1", 3, none, []⟩])) "i1").map
        (fun r => (r.status, r.quantity, r.totalPrice)) =
      some (OrderItemStatus.ACTIVE, 3, 30000) ∧
    (orderOf (okOr DB.empty (batchUpdateItems c10Db "o1" [⟨"i1", 3, none, []⟩])) "o1").map
        (fun o => (o.subtotal, o.total)) = some (30000, 30000) := by
  have hk := @batch_omitted_status_reactivates c10Db "o1"
    ⟨"o1", "00001", .PENDING, 0, 0, "t1", "u1", 0⟩ "i1" 3
    ⟨"i1", "o1", "f1", 0, 10000, 0, .CANCELED⟩ ⟨"f1", "t1", 10000⟩
    (okOr DB.empty (batchUpdateItems c10Db "o1" [⟨"i1", 3, none, []⟩]))
    rfl rfl rfl rfl rfl
  exact ⟨by rw [hk.1]; rfl, by rw [hk.2]; rfl⟩

/-- **C9** counterexample: item `i2` belongs to order `o2`, yet a batch
update addressed to order `o1` that names `i2` succeeds — the handler
resolves item ids globally and never checks membership in the target
order; `o1` absorbs the price difference of another order's item. -/
theorem batch_foreign_item_accepted_counterexample :
    (itemOf c9Db "i2").map (fun r => r.orderId) = some "o2" ∧
    (batchUpdateItems c9Db "o1" [⟨"i2", 5, none, []⟩]).map
        (fun d => ((orderOf d "o1").map (fun o => o.subtotal),
                   (itemOf d "i2").map (fun r => r.totalPrice))) =
      .ok (some 40000, some 50000) :=
  ⟨rfl, rfl⟩

/-- **C9** (amended): the batch update's item lookup is global, not scoped
to the target order.  (a) Any existing item id with a price for the target
order's order type is accepted, regardless of which order the item row
belongs to.  (b) The not-found rejection fires only for an id that does
not exist at all. -/
theorem batch_item_lookup_is_global :
    (∀ (db : DB) (oid : String) (ord : OrderRow) (e : UpdateOrderItemInput)
       (row : OrderItemRow) (fp : FoodPriceRow),
       orderOf db oid = some ord →
       itemOf db e.id = some row →
       priceOf db row.foodId ord.orderTypeId = some fp →
       e.options = [] →
       exceptOk (batchUpdateItems db oid [e]) = true) ∧
    (∀ (db : DB) (oid : String) (ord : OrderRow) (e : UpdateOrderItemInput),
       orderOf db oid = some ord →
       itemOf db e.id = none →
       batchUpdateItems db oid [e] = .error "Order item not found") := by
  constructor
  · intro db oid ord e row fp hord hit hfp hopts
    have hstep : ∃ pr, batchItemStep db ord.orderTypeId e = .ok pr := by
      unfold batchItemStep
      rw [hopts]
      simp only [hit, hfp, batchOptionLoop]
      exact ⟨_, rfl⟩
    obtain ⟨⟨dbm, dd⟩, hst⟩ := hstep
    unfold batchUpdateItems
    simp only [hord, batchItemsLoop, hst, exceptOk]
  · intro db oid ord e hord hit
    unfold batchUpdateItems
    simp only [hord, batchItemsLoop, batchItemStep, hit]

/-- **C9** witness: on `c9Db`, the update of foreign item `i2` through
order `o1` succeeds, while a nonexistent id fails with the not-found
error. -/
theorem batch_item_lookup_is_global_witness :
    exceptOk (batchUpdateItems c9Db "o1" [⟨"i2", 5, none, []⟩]) = true ∧
    batchUpdateItems c9Db "o1" [⟨"ghost", 1, none, []⟩] = .error "Order item not found" :=
  ⟨batch_item_lookup_is_global.1 c9Db "o1" ⟨"o1", "00001", .PENDING, 0, 0, "t1", "u1", 0⟩
      ⟨"i2", 5, none, []⟩ ⟨"i2", "o2", "f1", 1, 10000, 10000, .ACTIVE⟩ ⟨"f1", "t1", 10000⟩
      rfl rfl rfl rfl,
   batch_item_lookup_is_global.2 c9Db "o1" ⟨"o1", "00001", .PENDING, 0, 0, "t1", "u1", 0⟩
      ⟨"ghost", 1, none, []⟩ rfl rfl⟩

/-- **C1** counterexample: `c1Db` satisfies the §8 totals invariant, and a
batch update of its item that lists none of the item's options succeeds —
but the rewritten item total counts only the request-listed options, so
the stored ACTIVE option's 2000 is dropped from the item total while its
row survives, and the invariant no longer holds afterwards. -/
theorem totals_consistency_counterexample :
    totalsInvariant c1Db ∧
    exceptOk (batchUpdateItems c1Db "o1" [⟨"i1", 3, none, []⟩]) = true ∧
    ¬ totalsInvariant (okOr DB.empty (batchUpdateItems c1Db "o1" [⟨"i1", 3, none, []⟩])) :=
  ⟨by decide, by decide, by decide⟩

/-- **C1** (amended): totals consistency per mutating operation.
(1) Order creation establishes the §8 invariant, given fresh,
duplicate-free row ids.  (2) Adding items preserves it, given fresh ids
and duplicate-free stored order ids.  (3) The batch update preserves
`total = subtotal` for *every* order, and recomputes every touched item's
total as quantity times the resolved unit price plus the sum of the
*request-listed* option totals (`expectedNewTotal`) — not the sum of all
of the item's stored option totals; see the counterexample. -/
theorem totals_consistency_per_operation :
    (∀ (db : DB) (dt : Option String) (w out otid : String)
       (items : List NewOrderItemInput) (oid : String) (cAt : Int) (db' : DB),
       totalsInvariant db →
       (items.map (fun i => i.rowId)).Nodup →
       (∀ o ∈ db.orders, o.id ≠ oid) →
       (∀ it ∈ db.orderItems, it.orderId ≠ oid) →
       (∀ it ∈ db.orderItems, it.id ∉ items.map (fun i => i.rowId)) →
       (∀ op ∈ db.orderItemOptions, op.orderItemId ∉ items.map (fun i => i.rowId)) →
       createOrder db dt w out otid items oid cAt = .ok db' →
       totalsInvariant db') ∧
    (∀ (db : DB) (oid : String) (items : List NewOrderItemInput) (db' : DB),
       totalsInvariant db →
       (db.orders.map (fun o => o.id)).Nodup →
       (items.map (fun i => i.rowId)).Nodup →
       (∀ it ∈ db.orderItems, it.id ∉ items.map (fun i => i.rowId)) →
       (∀ op ∈ db.orderItemOptions, op.orderItemId ∉ items.map (fun i => i.rowId)) →
       addItemsToOrder db oid items = .ok db' →
       totalsInvariant db') ∧
    (∀ (db : DB) (oid : String) (items : List UpdateOrderItemInput) (db' : DB),
       batchUpdateItems db oid items = .ok db' →
       ((∀ o ∈ db.orders, o.total = o.subtotal) → ∀ o ∈ db'.orders, o.total = o.subtotal) ∧
       (∀ ord : OrderRow, orderOf db oid = some ord →
         (items.map (fun e => e.id)).Nodup →
         ∀ e ∈ items, (itemOf db' e.id).map (fun r => r.totalPrice) =
           expectedNewTotal db ord.orderTypeId e)) :=
  ⟨fun _ _ _ _ _ _ _ _ _ hInv hnd hOrd hRef hIt hOpt h =>
      createOrder_totalsInvariant hInv hnd hOrd hRef hIt hOpt h,
   fun _ _ _ _ hInv hndO hnd hIt hOpt h =>
      addItems_totalsInvariant hInv hndO hnd hIt hOpt h,
   fun _ _ _ _ h =>
      ⟨fun hEq => batchUpdateItems_total_eq_subtotal h hEq,
       fun _ hord hnd => batchUpdateItems_item_totals h hord hnd⟩⟩

/-- **C1** witness: the create/add legs at concrete states (`c1CreateDb`,
`c1AddDb`) yield invariant states, and the batch leg at `c1Db` preserves
`total = subtotal` and writes the request-derived total. -/
theorem totals_consistency_per_operation_witness :
    totalsInvariant c1CreateDb ∧ totalsInvariant c1AddDb ∧
    (∀ o ∈ c1BatchDb.orders, o.total = o.subtotal) ∧
    (itemOf c1BatchDb "i1").map (fun r => r.totalPrice) =
      expectedNewTotal c1Db "t1" ⟨"i1", 3, none, [⟨"p1", 1, none⟩]⟩ := by
  have h3 := (totals_consistency_per_operation.2.2) c1Db "o1"
    [⟨"i1", 3, none, [⟨"p1", 1, none⟩]⟩] c1BatchDb rfl
  refine ⟨?_, ?_, ?_, ?_⟩
  · exact totals_consistency_per_operation.1 c1BaseDb none "w1" "u1" "t1"
      [⟨"i1", "f1", 2, [⟨"p1", "x1", 1⟩]⟩] "o1" 0 c1CreateDb
      (by decide) (by decide) (by decide) (by decide) (by decide) (by decide) rfl
  · exact totals_consistency_per_operation.2.1 c1CreateDb "o1" [⟨"i2", "f1", 1, []⟩] c1AddDb
      (by decide) (by decide) (by decide) (by decide) (by decide) rfl
  · exact h3.1 (by decide)
  · exact h3.2 ⟨"o1", "00001", .PENDING, 22000, 22000, "t1", "u1", 0⟩ rfl (by decide)
      ⟨"i1", 3, none, [⟨"p1", 1, none⟩]⟩ (List.mem_cons_self _ _)

end Poddo
